import Mathlib

/-!
Verification development for the coordinate cleaning engine of the dataprep
repository (src/dataprep/clean/clean_lat_long.py).

The source matches each input string against a Python regular expression
`PATTERN` with named capture groups, then validates and reformats the captured
coordinate fields.  We embed the pattern as a small backtracking regular
expression matcher (faithful to Python's leftmost, greedy/lazy backtracking
semantics for the constructs the pattern uses), embed the numeric computations
over `ℚ` (the source computes with floats over decimal literals; the embedding
is exact decimal arithmetic), and transliterate `check_lat_long`,
`format_lat_long`, `not_lat_long` and the statistics accounting.
-/

set_option maxHeartbeats 1000000

attribute [local semireducible] Rat.mul Rat.add Rat.sub Rat.inv

namespace DataprepLatLong

/-- Capture state: map from a capture-group index to the captured characters.
Group indices 1..10 correspond, in order, to the pattern's named groups
dir_front, deg, min, sec, dir_back, dir_front2, deg2, min2, sec2, dir_back2. -/
def Caps : Type := Nat → Option (List Char)

def capsEmpty : Caps := fun _ => none

def capsSet (g : Nat) (v : List Char) (c : Caps) : Caps :=
  fun g2 => if g2 = g then some v else c g2

/-- Regular-expression abstract syntax covering exactly the constructs used by
the source pattern: character classes, concatenation, ordered alternation
(which encodes the greedy `?` quantifier), greedy star of a character class
(`[ ]*`, `\s*`, `\d+`'s tail), lazy star of a character class (`.*?`),
capture groups, and the `$` anchor. -/
inductive RE where
  | eps : RE
  | eos : RE
  | cls : (Char → Bool) → RE
  | seqR : RE → RE → RE
  | altR : RE → RE → RE
  | starCls : (Char → Bool) → RE
  | lazyStarCls : (Char → Bool) → RE
  | grp : Nat → RE → RE

def nlChar : Char := Char.ofNat 10

/-- First-success choice on optional capture results (backtracking order). -/
def oElse (a b : Option Caps) : Option Caps :=
  match a with
  | some r => some r
  | none => b

/-- Greedy star of a character class: prefer consuming one more accepted
character, fall back to the continuation at the current position. -/
def starRun (p : Char → Bool) :
    List Char → Caps → (List Char → Caps → Option Caps) → Option Caps
  | [], c, k => k [] c
  | ch :: s2, c, k =>
      if p ch then oElse (starRun p s2 c k) (k (ch :: s2) c)
      else k (ch :: s2) c

/-- Lazy star of a character class: prefer the continuation at the current
position, fall back to consuming one more accepted character. -/
def lazyRun (p : Char → Bool) :
    List Char → Caps → (List Char → Caps → Option Caps) → Option Caps
  | [], c, k => oElse (k [] c) none
  | ch :: s2, c, k =>
      oElse (k (ch :: s2) c) (if p ch then lazyRun p s2 c k else none)

/-- Backtracking matcher in continuation-passing style.  `reM r s c k` tries to
match `r` against a prefix of `s` starting from capture state `c`, and calls
the continuation `k` with the remaining input and updated captures; the first
alternative (in Python's documented backtracking order) whose continuation
succeeds wins.  `eos` implements Python's `$` (end of input, or just before a
final newline). -/
def reM : RE → List Char → Caps → (List Char → Caps → Option Caps) → Option Caps
  | .eps, s, c, k => k s c
  | .eos, s, c, k => if s = [] ∨ s = [nlChar] then k s c else none
  | .cls p, s, c, k =>
      match s with
      | [] => none
      | ch :: s2 => if p ch then k s2 c else none
  | .seqR a b, s, c, k => reM a s c (fun s2 c2 => reM b s2 c2 k)
  | .altR a b, s, c, k => oElse (reM a s c k) (reM b s c k)
  | .starCls p, s, c, k => starRun p s c k
  | .lazyStarCls p, s, c, k => lazyRun p s c k
  | .grp g r, s, c, k =>
      reM r s c (fun s2 c2 => k s2 (capsSet g (s.take (s.length - s2.length)) c2))

/-! Character classes of the source pattern.  `\d` and `\s` carry Python's
`re.UNICODE` semantics; `\d` also accepts non-ASCII decimal digits in Python,
which no input of this development (and no claim) exercises, so the embedding
uses the ASCII range. -/

def isDigitCh (c : Char) : Bool := decide (48 ≤ c.toNat ∧ c.toNat ≤ 57)

/-- Python `\s` under `re.UNICODE`: ASCII whitespace (space, code points
9-13 and 28-31) plus the Unicode whitespace code points. -/
def wsCh (c : Char) : Bool :=
  decide (c.toNat = 32 ∨ (9 ≤ c.toNat ∧ c.toNat ≤ 13) ∨
    (28 ≤ c.toNat ∧ c.toNat ≤ 31) ∨ c.toNat = 133 ∨ c.toNat = 160 ∨
    c.toNat = 5760 ∨ (8192 ≤ c.toNat ∧ c.toNat ≤ 8202) ∨ c.toNat = 8232 ∨
    c.toNat = 8233 ∨ c.toNat = 8239 ∨ c.toNat = 8287 ∨ c.toNat = 12288)

/-- Class `[NSEW]` (code points 78, 83, 69, 87). -/
def nsewCh (c : Char) : Bool :=
  decide (c.toNat = 78 ∨ c.toNat = 83 ∨ c.toNat = 69 ∨ c.toNat = 87)

/-- Class `[°D*°\s]` marking the end of the degree field: the degree sign
(chr 176, written twice in the source class), `D` (68), `*` (42), or
whitespace. -/
def degSymCh (c : Char) : Bool :=
  decide (c.toNat = 176 ∨ c.toNat = 68 ∨ c.toNat = 42) || wsCh c

def apoChar : Char := Char.ofNat 39

/-- Class `[′'m]` after the minutes field: the prime (chr 8242), the ASCII
apostrophe (39), or `m` (109). -/
def primeSymCh (c : Char) : Bool :=
  decide (c.toNat = 8242 ∨ c.toNat = 39 ∨ c.toNat = 109)

/-- Class `[″"s]` after the seconds field: the double prime (chr 8243), the
double quote (34), or `s` (115). -/
def dprimeSymCh (c : Char) : Bool :=
  decide (c.toNat = 8243 ∨ c.toNat = 34 ∨ c.toNat = 115)

/-- Class `[,;/\s]` separating the two coordinate groups: `,` (44), `;` (59),
`/` (47), or whitespace. -/
def sepClsCh (c : Char) : Bool :=
  decide (c.toNat = 44 ∨ c.toNat = 59 ∨ c.toNat = 47) || wsCh c

def dotCh (c : Char) : Bool := decide (c.toNat = 46)
def dashCh (c : Char) : Bool := decide (c.toNat = 45)
def spCh (c : Char) : Bool := decide (c.toNat = 32)
def oparCh (c : Char) : Bool := decide (c.toNat = 40)
def cparCh (c : Char) : Bool := decide (c.toNat = 41)

/-- Python `.` without `re.DOTALL`: any character except a newline (10). -/
def anyNoNl (c : Char) : Bool := decide (c.toNat ≠ 10)

/-- Greedy `r?`: try the body first, fall back to the empty match. -/
def optR (r : RE) : RE := .altR r .eps

/-- `FLOAT`, i.e. `\d+(?:\.\d+)?`. -/
def floatRE : RE :=
  .seqR (.cls isDigitCh) (.seqR (.starCls isDigitCh)
    (optR (.seqR (.cls dotCh) (.seqR (.cls isDigitCh) (.starCls isDigitCh)))))

/-- `-?FLOAT`, the degree field. -/
def signedFloatRE : RE := .seqR (optR (.cls dashCh)) floatRE

/-- One coordinate group of the pattern:
`(?P<dir_front>[NSEW])?[ ]*(?P<deg>-?FLOAT)(?:[°D*\s][ ]*(?:(?P<min>FLOAT)[′'m]?[ ]*)?(?:(?P<sec>FLOAT)[″"s][ ]*)?)?(?P<dir_back>[NSEW])?`,
parameterized by the five capture-group indices. -/
def coordRE (gFront gDeg gMin gSec gBack : Nat) : RE :=
  .seqR (optR (.grp gFront (.cls nsewCh)))
  (.seqR (.starCls spCh)
  (.seqR (.grp gDeg signedFloatRE)
  (.seqR (optR (.seqR (.cls degSymCh) (.seqR (.starCls spCh)
      (.seqR (optR (.seqR (.grp gMin floatRE)
                          (.seqR (optR (.cls primeSymCh)) (.starCls spCh))))
             (optR (.seqR (.grp gSec floatRE)
                          (.seqR (.cls dprimeSymCh) (.starCls spCh))))))))
  (optR (.grp gBack (.cls nsewCh))))))

/-- The pair separator `\s*[,;/\s]\s*`. -/
def sepRE : RE := .seqR (.starCls wsCh) (.seqR (.cls sepClsCh) (.starCls wsCh))

/-- The full source pattern
`.*?[(]? <group1> (?: <sep> <group2> )? [)]?\s*$` compiled with `re.VERBOSE`. -/
def patternRE : RE :=
  .seqR (.lazyStarCls anyNoNl)
  (.seqR (optR (.cls oparCh))
  (.seqR (coordRE 1 2 3 4 5)
  (.seqR (optR (.seqR sepRE (coordRE 6 7 8 9 10)))
  (.seqR (optR (.cls cparCh))
  (.seqR (.starCls wsCh) .eos)))))

/-- The named capture groups of a successful match, each the captured
character run or `none` if the group did not participate. -/
structure MatchGroups where
  dirFront : Option (List Char)
  deg : Option (List Char)
  mins : Option (List Char)
  secs : Option (List Char)
  dirBack : Option (List Char)
  dirFront2 : Option (List Char)
  deg2 : Option (List Char)
  mins2 : Option (List Char)
  secs2 : Option (List Char)
  dirBack2 : Option (List Char)
deriving DecidableEq

def capsGroups (c : Caps) : MatchGroups :=
  ⟨c 1, c 2, c 3, c 4, c 5, c 6, c 7, c 8, c 9, c 10⟩

/-- Model of `re.sub(r"''", r'"', s)`: replace each non-overlapping pair of
ASCII apostrophes with one double quote, scanning left to right. -/
def subApo : List Char → List Char
  | [] => []
  | [ch] => [ch]
  | ch :: ch2 :: rest =>
      if ch = apoChar ∧ ch2 = apoChar then '"' :: subApo rest
      else ch :: subApo (ch2 :: rest)

/-- Model of `re.match(PATTERN, re.sub(r"''", r'"', s))`: the capture groups of
the leftmost match, or `none` when the pattern does not match. -/
def pyMatch (s : String) : Option MatchGroups :=
  (reM patternRE (subApo s.data) capsEmpty (fun _ c => some c)).map capsGroups

/-! Numeric conversion.  The source calls Python `float` on captured group
strings, which the grammar guarantees have the shape `-?\d+(\.\d+)?`; the
embedding reads such a string into an exact rational. -/

def digitVal (c : Char) : ℕ := c.toNat - 48

def digitsToNat (l : List Char) : ℕ := l.foldl (fun n c => 10 * n + digitVal c) 0

def pyFloatPos (cs : List Char) : ℚ :=
  let ip := cs.takeWhile isDigitCh
  match cs.dropWhile isDigitCh with
  | '.' :: frac => (digitsToNat ip : ℚ) + (digitsToNat frac : ℚ) / 10 ^ frac.length
  | _ => (digitsToNat ip : ℚ)

def pyFloat (cs : List Char) : ℚ :=
  match cs with
  | c :: rest => if c.toNat = 45 then -(pyFloatPos rest) else pyFloatPos (c :: rest)
  | [] => pyFloatPos []

/-- The string members of the source's `NULL_VALUES` set. -/
def NULL_STRS : List String :=
  ["#N/A", "#N/A N/A", "#NA", "-1.#IND", "-1.#QNAN", "-NaN", "-nan",
   "1.#IND", "1.#QNAN", "<NA>", "N/A", "NA", "NULL", "NaN", "n/a", "nan",
   "null", ""]

/-- An input cell: a string, or the float NaN objects stored in `NULL_VALUES`
(`np.nan` / `float("NaN")`; Python's `str` renders them as `"nan"`). -/
inductive CellVal where
  | str : String → CellVal
  | nanV : CellVal
deriving DecidableEq

def cellStr : CellVal → String
  | .str t => t
  | .nanV => "nan"

/-- The test `row[col] in NULL_VALUES`. -/
def isNullVal : CellVal → Bool
  | .nanV => true
  | .str t => NULL_STRS.contains t

/-- Round half to even at integer precision, the semantics of Python's
built-in `round`. -/
def rhe (q : ℚ) : ℤ :=
  let f := ⌊q⌋
  let r := q - f
  if r < 1 / 2 then f
  else if 1 / 2 < r then f + 1
  else if f % 2 = 0 then f else f + 1

/-- Python `round(q, 4)`. -/
def round4 (q : ℚ) : ℚ := (rhe (q * 10000) : ℚ) / 10000

/-- Python `int(q)`: truncation toward zero. -/
def pyTrunc (q : ℚ) : ℤ := if q < 0 then -⌊-q⌋ else ⌊q⌋

/-! Rendering, modelling Python's f-string formatting of the values that occur
on the rendering paths: `str` of a nonnegative `int`, and `str` of a float
whose fractional part has at most four decimal digits (the image of
`round(_, 4)`), which Python prints as a plain decimal with the trailing
zeros of the fraction removed but at least one fractional digit kept. -/

def digitChar (n : ℕ) : Char := Char.ofNat (48 + n)

def natDigsAux : ℕ → ℕ → List Char
  | 0, _ => []
  | _ + 1, 0 => []
  | f + 1, n + 1 => natDigsAux f ((n + 1) / 10) ++ [digitChar ((n + 1) % 10)]

/-- Decimal digits of a natural number, as Python `str` renders it. -/
def natDigs (n : ℕ) : List Char := if n = 0 then ['0'] else natDigsAux (n + 1) n

/-- Python `str` of an `int`. -/
def intRender (z : ℤ) : String :=
  if z < 0 then "-" ++ ⟨natDigs (-z).toNat⟩ else ⟨natDigs z.toNat⟩

/-- The four fractional digits of `n < 10000`, most significant first. -/
def pad4 (n : ℕ) : List Char :=
  [digitChar (n / 1000 % 10), digitChar (n / 100 % 10),
   digitChar (n / 10 % 10), digitChar (n % 10)]

/-- Drop trailing zero digits but keep at least one digit. -/
def strip0 (l : List Char) : List Char :=
  match (l.reverse.dropWhile (fun c => c = '0')).reverse with
  | [] => ['0']
  | r => r

/-- The numerator of the four-decimal fractional part of `|q|`'s fraction. -/
def fracNat (a : ℚ) : ℕ := (⌊(a - ⌊a⌋) * 10000⌋).toNat

/-- Python `str` of a float whose value has at most four decimal places (the
only floats the source renders). -/
def pyFloatStr (q : ℚ) : String :=
  let a := |q|
  ⟨(if q < 0 then ['-'] else []) ++ natDigs ⌊a⌋.toNat ++ '.' :: strip0 (pad4 (fracNat a))⟩

/-- Python f-string rendering of a value that is an `int` when
`float.is_integer()` held (the source's `int(x) if x.is_integer() else x`)
and a float otherwise. -/
def numRender (q : ℚ) : String := if q.den = 1 then intRender q.num else pyFloatStr q

def degChar : Char := Char.ofNat 176
def primeChar : Char := Char.ofNat 8242
def dprimeChar : Char := Char.ofNat 8243

/-- Python rendering of the hemisphere variable in an f-string: the letter, or
`"None"` when the variable still holds `None`. -/
def hemRender : Option (List Char) → String
  | some h => ⟨h⟩
  | none => "None"

/-- The `"ddh"` rendering `f"{round(dds, 4)}° {hem}"`. -/
def ddhStr (dds : ℚ) (hem : Option (List Char)) : String :=
  pyFloatStr (round4 dds) ++ ⟨[degChar]⟩ ++ " " ++ hemRender hem

/-- The `"dm"` rendering `f"{int(dds)}° {mins}′ {hem}"` with
`mins = round(60 * (dds - int(dds)), 4)` demoted to `int` when whole. -/
def dmStr (dds : ℚ) (hem : Option (List Char)) : String :=
  intRender (pyTrunc dds) ++ ⟨[degChar]⟩ ++ " " ++
  numRender (round4 (60 * (dds - pyTrunc dds))) ++ ⟨[primeChar]⟩ ++ " " ++
  hemRender hem

/-- The seconds value of the `"dms"` rendering:
`round(3600 * (dds - int(dds)) - 60 * mins, 4)` with
`mins = int(60 * (dds - int(dds)))`. -/
def dmsSecs (dds : ℚ) : ℚ :=
  round4 (3600 * (dds - pyTrunc dds) - 60 * pyTrunc (60 * (dds - pyTrunc dds)))

/-- The `"dms"` rendering `f"{int(dds)}° {mins}′ {secs}″ {hem}"`. -/
def dmsStr (dds : ℚ) (hem : Option (List Char)) : String :=
  intRender (pyTrunc dds) ++ ⟨[degChar]⟩ ++ " " ++
  intRender (pyTrunc (60 * (dds - pyTrunc dds))) ++ ⟨[primeChar]⟩ ++ " " ++
  numRender (dmsSecs dds) ++ ⟨[dprimeChar]⟩ ++ " " ++ hemRender hem

/-! Transliteration of `check_lat_long` and `format_lat_long`. -/

/-- The value of an optional minutes/seconds group:
`float(mch.group(g)) if mch.group(g) else 0`. -/
def minsVal (o : Option (List Char)) : ℚ :=
  match o with
  | some l => pyFloat l
  | none => 0

/-- The float value of the degree group (always present on a match). -/
def degVal (g : MatchGroups) : ℚ := pyFloat (g.deg.getD [])

def deg2Val (g : MatchGroups) : ℚ := pyFloat (g.deg2.getD [])

/-- `hem = mch.group("dir_back") or mch.group("dir_front")`. -/
def hemOf (g : MatchGroups) : Option (List Char) :=
  match g.dirBack with
  | some h => some h
  | none => g.dirFront

/-- `hem2 = mch.group("dir_back2") or mch.group("dir_front2")`. -/
def hem2Of (g : MatchGroups) : Option (List Char) :=
  match g.dirBack2 with
  | some h => some h
  | none => g.dirFront2

/-- `dds = float(mch.group("deg")) + mins / 60 + secs / 3600`. -/
def ddsOfG (g : MatchGroups) : ℚ :=
  degVal g + minsVal g.mins / 60 + minsVal g.secs / 3600

def dds2OfG (g : MatchGroups) : ℚ :=
  deg2Val g + minsVal g.mins2 / 60 + minsVal g.secs2 / 3600

/-- The first rejection test of both `check_lat_long` and `format_lat_long`
(source lines 174-182 and 313-321): minutes or seconds outside `[0, 60)`, a
hemisphere letter outside `{N, S, E, W}` or paired with a negative degree
value, or hemisphere letters both before and after the coordinate. -/
def grpReject (g : MatchGroups) : Bool :=
  decide (¬(0 ≤ minsVal g.mins ∧ minsVal g.mins < 60)) ||
  decide (¬(0 ≤ minsVal g.secs ∧ minsVal g.secs < 60)) ||
  (match hemOf g with
   | none => false
   | some h =>
       decide (¬(h = ['N'] ∨ h = ['S'] ∨ h = ['E'] ∨ h = ['W'])) ||
       decide (degVal g < 0)) ||
  (g.dirBack.isSome && g.dirFront.isSome)

/-- The pair rejection test (source lines 233-245 and 351-363). -/
def pairReject (g : MatchGroups) : Bool :=
  decide (¬(0 ≤ minsVal g.mins2 ∧ minsVal g.mins2 < 60)) ||
  decide (¬(0 ≤ minsVal g.secs2 ∧ minsVal g.secs2 < 60)) ||
  (match hemOf g with
   | none => false
   | some h => decide (¬(h = ['N'] ∨ h = ['S']))) ||
  (match hem2Of g with
   | none => false
   | some h => decide (¬(h = ['E'] ∨ h = ['W'])) || decide (deg2Val g < 0)) ||
  decide (¬(-90 ≤ ddsOfG g ∧ ddsOfG g ≤ 90)) ||
  decide (¬(-180 ≤ dds2OfG g ∧ dds2OfG g ≤ 180)) ||
  (g.dirBack2.isSome && g.dirFront2.isSome)

/-- Hemisphere inference for a single coordinate (source lines 185-190 and
324-329): when no letter was captured, infer it from the axis and the sign of
`dds`; an axis other than `"lat"`/`"long"` leaves the letter `None`. -/
def inferHem (hem : Option (List Char)) (dds : ℚ) (hor : String) :
    Option (List Char) :=
  match hem with
  | some h => some h
  | none =>
      if hor = "lat" then some (if 0 ≤ dds then ['N'] else ['S'])
      else if hor = "long" then some (if 0 ≤ dds then ['E'] else ['W'])
      else none

/-- The single-coordinate tail of `check_lat_long` (source lines 323-336). -/
def singleFlowCheck (g : MatchGroups) (hor : String) : Bool :=
  let dds := ddsOfG g
  let hem := inferHem (hemOf g) dds hor
  if hor = "lat" then
    decide (-90 ≤ dds ∧ dds ≤ 90) && decide (hem = some ['N'] ∨ hem = some ['S'])
  else if hor = "long" then
    decide (-180 ≤ dds ∧ dds ≤ 180) && decide (hem = some ['E'] ∨ hem = some ['W'])
  else true

/-- The cleaning outcome written into the row: `np.nan` tagged by the
statistics category for the two failure kinds, or the cleaned value(s).  A
cleaned pair is stored as the two columns `latitude`/`longitude` when
`split` is set and otherwise as a tuple (numeric) or one joined string.
`kept` is the output of the spec-modelled "ignore" policy, and `errFmt` marks
the exception the source raises on an unrecognized output format. -/
inductive Outcome where
  | nullNaN : Outcome
  | unknown : Outcome
  | singleDD : ℚ → Outcome
  | singleStr : String → Outcome
  | pairDD : ℚ → ℚ → Outcome
  | pairStrCols : String → String → Outcome
  | pairStrJoined : String → Outcome
  | kept : String → Outcome
  | errFmt : Outcome
deriving DecidableEq

/-- The single-coordinate tail of `format_lat_long` (source lines 184-218). -/
def singleFlowFormat (g : MatchGroups) (fmt : String) (hor : String) : Outcome :=
  let dds0 := ddsOfG g
  let hem := inferHem (hemOf g) dds0 hor
  let dds := |dds0|
  if hor = "lat" ∧ (90 < dds ∨ ¬(hem = some ['N'] ∨ hem = some ['S'])) then
    .unknown
  else if hor = "long" ∧ (180 < dds ∨ ¬(hem = some ['E'] ∨ hem = some ['W'])) then
    .unknown
  else if fmt = "dd" then
    .singleDD (round4 ((if hem = some ['S'] ∨ hem = some ['W'] then (-1 : ℚ) else 1) * dds))
  else if fmt = "ddh" then .singleStr (ddhStr dds hem)
  else if fmt = "dm" then .singleStr (dmStr dds hem)
  else if fmt = "dms" then .singleStr (dmsStr dds hem)
  else .errFmt

def pairStrOut (split : Bool) (lat lon : String) : Outcome :=
  if split then .pairStrCols lat lon else .pairStrJoined (lat ++ ", " ++ lon)

/-- The pair tail of `format_lat_long` (source lines 220-287).  The horizontal
axis parameter is not consulted on this path. -/
def pairFlowFormat (g : MatchGroups) (fmt : String) (split : Bool) : Outcome :=
  if pairReject g then .unknown
  else
    let dds0 := ddsOfG g
    let dds2V := dds2OfG g
    let hem := match hemOf g with
      | some h => some h
      | none => some (if 0 ≤ dds0 then ['N'] else ['S'])
    let hem2 := match hem2Of g with
      | some h => some h
      | none => some (if 0 ≤ dds2V then ['E'] else ['W'])
    let dds := |dds0|
    let dds2 := |dds2V|
    if 90 < dds ∨ 180 < dds2 then .unknown
    else if fmt = "dd" then
      .pairDD (round4 ((if hem = some ['S'] then (-1 : ℚ) else 1) * dds))
              (round4 ((if hem2 = some ['W'] then (-1 : ℚ) else 1) * dds2))
    else if fmt = "ddh" then pairStrOut split (ddhStr dds hem) (ddhStr dds2 hem2)
    else if fmt = "dm" then pairStrOut split (dmStr dds hem) (dmStr dds2 hem2)
    else if fmt = "dms" then pairStrOut split (dmsStr dds hem) (dmsStr dds2 hem2)
    else .errFmt

/-- `format_lat_long` for one cell: null-set pre-check, grammar match, shared
validation, then the single or pair flow. -/
def formatLatLong (val : CellVal) (fmt : String) (split : Bool) (hor : String) :
    Outcome :=
  if isNullVal val then .nullNaN
  else
    match pyMatch (cellStr val) with
    | none => .unknown
    | some g =>
        match g.deg with
        | none => .unknown
        | some _ =>
            if grpReject g then .unknown
            else
              match g.deg2 with
              | none => singleFlowFormat g fmt hor
              | some _ => pairFlowFormat g fmt split

/-- `check_lat_long` for one cell. -/
def checkLatLong (val : CellVal) (hor : String) : Bool :=
  if isNullVal val then false
  else
    match pyMatch (cellStr val) with
    | none => false
    | some g =>
        match g.deg with
        | none => false
        | some _ =>
            if grpReject g then false
            else
              match g.deg2 with
              | none => singleFlowCheck g hor
              | some _ => !pairReject g

/-- `validate_lat_long` on a scalar delegates to `check_lat_long`. -/
def validateLatLong (val : CellVal) (hor : String) : Bool := checkLatLong val hor

/-- One batch run of `clean_lat_long` over a column: the per-row outcomes. -/
def cleanList (rows : List CellVal) (fmt : String) (split : Bool) (hor : String) :
    List Outcome :=
  rows.map (fun v => formatLatLong v fmt split hor)

/-- The `null` and `unknown` statistics increments of one row (`not_lat_long`
bumps exactly one of the two counters; the `cleaned` counter is not modelled,
no claim concerns it). -/
def statsDelta : Outcome → ℕ × ℕ
  | .nullNaN => (1, 0)
  | .unknown => (0, 1)
  | _ => (0, 0)

/-- The `null`/`unknown` counters after a batch run that started from
`reset_stats`. -/
def statsOf (l : List Outcome) : ℕ × ℕ :=
  l.foldl (fun p o => (p.1 + (statsDelta o).1, p.2 + (statsDelta o).2)) (0, 0)

/-- Modelled from the spec: the error-policy parameter of section 7 is not
present in `src/` (the source always coerces failures to `np.nan`); the spec
says an "ignore" policy may pass the original unparsed text through unchanged
instead of producing a null marker, while still incrementing the
`unknown`/`null` counters. -/
inductive ErrPolicy where
  | coerceP : ErrPolicy
  | ignoreP : ErrPolicy

/-- Modelled from the spec: under "ignore" the two failure outcomes keep the
original text; under "coerce" the outcome is unchanged. -/
def applyPolicy (orig : CellVal) (pol : ErrPolicy) (o : Outcome) : Outcome :=
  match pol, o with
  | .ignoreP, .nullNaN => .kept (cellStr orig)
  | .ignoreP, .unknown => .kept (cellStr orig)
  | _, x => x

/-- Modelled from the spec: one cell cleaned under an error policy, returning
the outcome together with the `null`/`unknown` counter increments (which the
policy does not change). -/
def cleanCellPol (val : CellVal) (fmt : String) (split : Bool) (hor : String)
    (pol : ErrPolicy) : Outcome × (ℕ × ℕ) :=
  let o := formatLatLong val fmt split hor
  (applyPolicy val pol o, statsDelta o)

/-! Step lemmas for the matcher. -/

theorem oElse_some (r : Caps) (b : Option Caps) : oElse (some r) b = some r := rfl

theorem oElse_none (b : Option Caps) : oElse none b = b := rfl

theorem reM_eps (s c k) : reM .eps s c k = k s c := by
  simp [reM]

theorem reM_eos_nil (c k) : reM .eos [] c k = k [] c := by
  simp [reM]

theorem reM_cls_nil (p c k) : reM (.cls p) [] c k = none := by
  simp [reM]

theorem reM_cls_cons (p ch s c k) :
    reM (.cls p) (ch :: s) c k = if p ch then k s c else none := by
  simp [reM]

theorem reM_seq (a b s c k) :
    reM (.seqR a b) s c k = reM a s c (fun s2 c2 => reM b s2 c2 k) := by
  rw [reM]

theorem reM_alt (a b s c k) :
    reM (.altR a b) s c k = oElse (reM a s c k) (reM b s c k) := by
  rw [reM]

theorem reM_star_nil (p c k) : reM (.starCls p) [] c k = k [] c := by
  simp [reM, starRun]

theorem reM_star_cons (p ch s c k) :
    reM (.starCls p) (ch :: s) c k =
      if p ch then oElse (reM (.starCls p) s c k) (k (ch :: s) c)
      else k (ch :: s) c := by
  simp [reM, starRun]

theorem reM_lazy_nil (p c k) :
    reM (.lazyStarCls p) [] c k = oElse (k [] c) none := by
  simp [reM, lazyRun]

theorem reM_lazy_cons (p ch s c k) :
    reM (.lazyStarCls p) (ch :: s) c k =
      oElse (k (ch :: s) c)
        (if p ch then reM (.lazyStarCls p) s c k else none) := by
  simp [reM, lazyRun]

theorem reM_grp (g r s c k) :
    reM (.grp g r) s c k =
      reM r s c (fun s2 c2 => k s2 (capsSet g (s.take (s.length - s2.length)) c2)) := by
  rw [reM]

/-- A lazy star succeeds immediately when its continuation does. -/
theorem lazy_first {p s c k r} (h : k s c = some r) :
    reM (.lazyStarCls p) s c k = some r := by
  cases s with
  | nil => rw [reM_lazy_nil, h]; rfl
  | cons ch s2 => rw [reM_lazy_cons, h]; rfl

/-- A greedy optional falls through to the empty branch when its body fails. -/
theorem optR_fail {q s c k} (h : reM q s c k = none) :
    reM (optR q) s c k = some x → k s c = some x := by
  intro hx
  rwa [optR, reM_alt, h, oElse_none, reM_eps] at hx

theorem optR_of_fail {q s c k} (h : reM q s c k = none) :
    reM (optR q) s c k = k s c := by
  rw [optR, reM_alt, h, oElse_none, reM_eps]

theorem optR_of_succ {q s c k r} (h : reM q s c k = some r) :
    reM (optR q) s c k = some r := by
  rw [optR, reM_alt, h, oElse_some]

/-- A greedy star skips a character its class rejects. -/
theorem starCls_skip {p ch} (s c k) (h : p ch = false) :
    reM (.starCls p) (ch :: s) c k = k (ch :: s) c := by
  rw [reM_star_cons, h]; rfl

/-- Head condition: the next character (if any) is not accepted by `p`. -/
def headNot (p : Char → Bool) : List Char → Prop
  | [] => True
  | ch :: _ => p ch = false

/-- A greedy star consumes a maximal all-accepted block when the continuation
succeeds right after it. -/
theorem starCls_all {p : Char → Bool} (ds : List Char) {rest : List Char}
    {c : Caps} {k : List Char → Caps → Option Caps} {r : Caps}
    (hds : ∀ x ∈ ds, p x = true) (hrest : headNot p rest)
    (hk : k rest c = some r) :
    reM (.starCls p) (ds ++ rest) c k = some r := by
  induction ds with
  | nil =>
      simp only [List.nil_append]
      cases rest with
      | nil => rwa [reM_star_nil]
      | cons ch s2 =>
          rw [reM_star_cons]
          simp only [headNot] at hrest
          rwa [hrest, if_neg (by simp)]
  | cons d ds ih =>
      have hd : p d = true := hds d (by simp)
      rw [List.cons_append, reM_star_cons, hd, if_pos rfl,
        ih (fun x hx => hds x (by simp [hx])), oElse_some]

/-- Capture extraction below a group that consumed exactly the prefix `a`. -/
theorem take_consumed (a b : List Char) :
    (a ++ b).take ((a ++ b).length - b.length) = a := by
  rw [List.length_append, Nat.add_sub_cancel, List.take_left]

/-! Character-class facts about symbolic digit and hemisphere characters. -/

theorem digit_bounds {c : Char} (h : isDigitCh c = true) :
    48 ≤ c.toNat ∧ c.toNat ≤ 57 := by
  simpa [isDigitCh] using h

theorem digit_not_opar {c : Char} (h : isDigitCh c = true) : oparCh c = false := by
  have hb := digit_bounds h
  simp only [oparCh, decide_eq_false_iff_not]
  omega

theorem digit_not_nsew {c : Char} (h : isDigitCh c = true) : nsewCh c = false := by
  have hb := digit_bounds h
  simp only [nsewCh, decide_eq_false_iff_not]
  omega

theorem digit_not_sp {c : Char} (h : isDigitCh c = true) : spCh c = false := by
  have hb := digit_bounds h
  simp only [spCh, decide_eq_false_iff_not]
  omega

theorem digit_not_dash {c : Char} (h : isDigitCh c = true) : dashCh c = false := by
  have hb := digit_bounds h
  simp only [dashCh, decide_eq_false_iff_not]
  omega

theorem digit_not_dot {c : Char} (h : isDigitCh c = true) : dotCh c = false := by
  have hb := digit_bounds h
  simp only [dotCh, decide_eq_false_iff_not]
  omega

theorem digit_ne_apo {c : Char} (h : isDigitCh c = true) : c ≠ apoChar := by
  intro e
  subst e
  exact absurd h (by decide)

theorem nsew_not_sp {c : Char} (h : nsewCh c = true) : spCh c = false := by
  simp only [nsewCh, decide_eq_true_eq] at h
  simp only [spCh, decide_eq_false_iff_not]
  omega

theorem nsew_ne_apo {c : Char} (h : nsewCh c = true) : c ≠ apoChar := by
  simp only [nsewCh, decide_eq_true_eq] at h
  intro e
  subst e
  revert h
  decide

/-- The apostrophe substitution is the identity on apostrophe-free text. -/
theorem subApo_id {l : List Char} (h : ∀ c ∈ l, c ≠ apoChar) : subApo l = l := by
  induction l with
  | nil => rfl
  | cons a t ih =>
      cases t with
      | nil => rfl
      | cons b t2 =>
          have ha : a ≠ apoChar := h a (by simp)
          rw [subApo, if_neg (by tauto)]
          rw [ih (fun c hc => h c (by simp [hc]))]

/-! Symbolic parse lemmas.  `fracChars`/`decChars` describe the strings of
shape `-?\d+(\.\d+)?` (plain decimal numerals). -/

def fracChars (F : List Char) : List Char := if F = [] then [] else '.' :: F

theorem fracChars_nil : fracChars [] = [] := rfl

theorem fracChars_cons (f0 : Char) (F2 : List Char) :
    fracChars (f0 :: F2) = '.' :: f0 :: F2 := rfl

def decChars (neg : Bool) (I F : List Char) : List Char :=
  (if neg then ['-'] else []) ++ (I ++ fracChars F)

/-- Head condition after a numeral: the next character is neither a digit nor
a dot. -/
def headNfD : List Char → Prop
  | [] => True
  | ch :: _ => isDigitCh ch = false ∧ dotCh ch = false

/-- Running `FLOAT` against digits `I`, optional fraction `F`, and a remainder
that cannot extend the numeral consumes exactly the numeral. -/
theorem floatRE_run {I F rest : List Char} {c : Caps}
    {k : List Char → Caps → Option Caps} {r : Caps}
    (hI : I ≠ []) (hID : ∀ x ∈ I, isDigitCh x = true)
    (hFD : ∀ x ∈ F, isDigitCh x = true)
    (hrest : headNfD rest) (hk : k rest c = some r) :
    reM floatRE ((I ++ fracChars F) ++ rest) c k = some r := by
  obtain ⟨i0, I2, rfl⟩ : ∃ a t, I = a :: t := by
    cases I with
    | nil => exact absurd rfl hI
    | cons a t => exact ⟨a, t, rfl⟩
  have hassoc : ((i0 :: I2) ++ fracChars F) ++ rest =
      i0 :: (I2 ++ (fracChars F ++ rest)) := by simp
  rw [floatRE, reM_seq, hassoc, reM_cls_cons, if_pos (hID i0 (by simp)), reM_seq]
  apply starCls_all I2 (fun x hx => hID x (by simp [hx]))
  · cases F with
    | nil =>
        cases rest with
        | nil => simp [fracChars_nil, headNot]
        | cons ch t => simpa [fracChars_nil, headNot] using hrest.1
    | cons f0 F2 =>
        simp only [fracChars_cons, List.cons_append, headNot]
        decide
  · cases F with
    | nil =>
        simp only [fracChars_nil, List.nil_append]
        rw [optR_of_fail ?hfail]
        · exact hk
        case hfail =>
          cases rest with
          | nil => rw [reM_seq, reM_cls_nil]
          | cons ch t => rw [reM_seq, reM_cls_cons, if_neg (by simp [hrest.2])]
    | cons f0 F2 =>
        have hfr : fracChars (f0 :: F2) ++ rest = '.' :: (f0 :: (F2 ++ rest)) := by
          simp [fracChars_cons]
        rw [hfr]
        apply optR_of_succ
        rw [reM_seq, reM_cls_cons, if_pos (by decide), reM_seq, reM_cls_cons,
          if_pos (hFD f0 (by simp))]
        exact starCls_all F2 (fun x hx => hFD x (by simp [hx]))
          (by cases rest with
              | nil => simp [headNot]
              | cons ch t => simpa [headNot] using hrest.1) hk

/-! Apply-style step lemmas, used to walk the pattern without rewriting under
continuations. -/

theorem seq_run {a b : RE} {s c k r}
    (h : reM a s c (fun s2 c2 => reM b s2 c2 k) = some r) :
    reM (.seqR a b) s c k = some r := by
  rw [reM_seq]; exact h

theorem optR_run_skip {q : RE} {s c k r} (hfail : reM q s c k = none)
    (h : k s c = some r) : reM (optR q) s c k = some r := by
  rw [optR_of_fail hfail]; exact h

theorem cls_run {p ch s c k r} (hp : p ch = true) (h : k s c = some r) :
    reM (.cls p) (ch :: s) c k = some r := by
  rw [reM_cls_cons, if_pos hp]; exact h

theorem cls_fail {p ch s c k} (hp : p ch = false) :
    reM (.cls p) (ch :: s) c k = none := by
  rw [reM_cls_cons, if_neg (by simp [hp])]

theorem grp_cls_fail {g p ch s c k} (hp : p ch = false) :
    reM (.grp g (.cls p)) (ch :: s) c k = none := by
  rw [reM_grp]; exact cls_fail hp

theorem star_skip_run {p ch s c k r} (hp : p ch = false)
    (h : k (ch :: s) c = some r) : reM (.starCls p) (ch :: s) c k = some r := by
  rw [starCls_skip _ _ _ hp]; exact h

theorem grp_run {g : Nat} {q : RE} {s c k r}
    (h : reM q s c
      (fun s2 c2 => k s2 (capsSet g (s.take (s.length - s2.length)) c2)) = some r) :
    reM (.grp g q) s c k = some r := by
  rw [reM_grp]; exact h

/-- Running `-?FLOAT` against a plain decimal numeral. -/
theorem signedFloatRE_run {neg : Bool} {I F rest : List Char} {c : Caps}
    {k : List Char → Caps → Option Caps} {r : Caps}
    (hI : I ≠ []) (hID : ∀ x ∈ I, isDigitCh x = true)
    (hFD : ∀ x ∈ F, isDigitCh x = true)
    (hrest : headNfD rest) (hk : k rest c = some r) :
    reM signedFloatRE (decChars neg I F ++ rest) c k = some r := by
  cases neg with
  | true =>
      have he : decChars true I F ++ rest = '-' :: ((I ++ fracChars F) ++ rest) := by
        simp [decChars]
      rw [signedFloatRE, he, reM_seq]
      apply optR_of_succ
      rw [reM_cls_cons, if_pos (by decide)]
      exact floatRE_run hI hID hFD hrest hk
  | false =>
      obtain ⟨i0, I2, rfl⟩ : ∃ a t, I = a :: t := by
        cases I with
        | nil => exact absurd rfl hI
        | cons a t => exact ⟨a, t, rfl⟩
      have he : decChars false (i0 :: I2) F ++ rest =
          ((i0 :: I2) ++ fracChars F) ++ rest := by simp [decChars]
      rw [signedFloatRE, he, reM_seq]
      rw [optR_of_fail (by
        rw [List.cons_append, List.cons_append, reM_cls_cons,
          if_neg (by simp [digit_not_dash (hID i0 (by simp))])])]
      exact floatRE_run hI hID hFD hrest hk

/-- Matching the full pattern against a plain decimal numeral: the degree
group captures the whole input and no other group participates. -/
theorem decParse (neg : Bool) (I F : List Char) (hI : I ≠ [])
    (hID : ∀ x ∈ I, isDigitCh x = true) (hFD : ∀ x ∈ F, isDigitCh x = true) :
    reM patternRE (decChars neg I F) capsEmpty (fun _ c => some c) =
      some (capsSet 2 (decChars neg I F) capsEmpty) := by
  obtain ⟨h0, t0, hs, hop, hns, hsp⟩ : ∃ h0 t0,
      decChars neg I F = h0 :: t0 ∧ oparCh h0 = false ∧ nsewCh h0 = false ∧
      spCh h0 = false := by
    obtain ⟨i0, I2, rfl⟩ : ∃ a t, I = a :: t := by
      cases I with
      | nil => exact absurd rfl hI
      | cons a t => exact ⟨a, t, rfl⟩
    have hd := hID i0 (by simp)
    cases neg with
    | true =>
        exact ⟨'-', (i0 :: I2) ++ fracChars F, by simp [decChars], by decide,
          by decide, by decide⟩
    | false =>
        exact ⟨i0, I2 ++ fracChars F, by simp [decChars], digit_not_opar hd,
          digit_not_nsew hd, digit_not_sp hd⟩
  simp only [patternRE, coordRE]
  apply seq_run
  apply lazy_first
  apply seq_run
  rw [hs]
  apply optR_run_skip (cls_fail hop)
  apply seq_run
  apply seq_run
  apply optR_run_skip (grp_cls_fail hns)
  apply seq_run
  apply star_skip_run hsp
  apply seq_run
  apply grp_run
  rw [← hs, show decChars neg I F = decChars neg I F ++ [] from by simp]
  apply signedFloatRE_run hI hID hFD (by simp [headNfD])
  rw [hs]
  simp only [List.append_nil, List.length_nil, Nat.sub_zero, List.take_length]
  rfl

theorem fracChars_no_apo {F : List Char} (hFD : ∀ x ∈ F, isDigitCh x = true) :
    ∀ c ∈ fracChars F, c ≠ apoChar := by
  cases F with
  | nil => simp [fracChars_nil]
  | cons f0 F2 =>
      rw [fracChars_cons]
      intro c hc
      rcases List.mem_cons.mp hc with hc | hc
      · subst hc; decide
      · exact digit_ne_apo (hFD c hc)

theorem decChars_no_apo {neg : Bool} {I F : List Char}
    (hID : ∀ x ∈ I, isDigitCh x = true) (hFD : ∀ x ∈ F, isDigitCh x = true) :
    ∀ c ∈ decChars neg I F, c ≠ apoChar := by
  intro c hc
  cases neg with
  | true =>
      simp [decChars] at hc
      rcases hc with hc | hc | hc
      · subst hc; decide
      · exact digit_ne_apo (hID c hc)
      · exact fracChars_no_apo hFD c hc
  | false =>
      simp [decChars] at hc
      rcases hc with hc | hc
      · exact digit_ne_apo (hID c hc)
      · exact fracChars_no_apo hFD c hc

/-- `pyMatch` on a plain decimal numeral: the degree group captures the whole
string. -/
theorem pyMatch_dec (neg : Bool) (I F : List Char) (hI : I ≠ [])
    (hID : ∀ x ∈ I, isDigitCh x = true) (hFD : ∀ x ∈ F, isDigitCh x = true) :
    pyMatch ⟨decChars neg I F⟩ =
      some ⟨none, some (decChars neg I F), none, none, none, none, none, none,
            none, none⟩ := by
  show (reM patternRE (subApo (decChars neg I F)) capsEmpty
      (fun _ c => some c)).map capsGroups = _
  rw [subApo_id (decChars_no_apo hID hFD), decParse neg I F hI hID hFD]
  rfl

theorem takeWhile_append_all {p : Char → Bool} {a b : List Char}
    (ha : ∀ c ∈ a, p c = true) (hb : headNot p b) :
    (a ++ b).takeWhile p = a ∧ (a ++ b).dropWhile p = b := by
  induction a with
  | nil =>
      cases b with
      | nil => simp
      | cons x t =>
          simp only [headNot] at hb
          simp [List.takeWhile_cons, List.dropWhile_cons, hb]
  | cons x t ih =>
      have hx : p x = true := ha x (by simp)
      have iht := ih (fun c hc => ha c (by simp [hc]))
      simp [List.takeWhile_cons, List.dropWhile_cons, hx, iht.1, iht.2]

theorem pyFloatPos_of_drop_nil {cs : List Char}
    (h : cs.dropWhile isDigitCh = []) :
    pyFloatPos cs = (digitsToNat (cs.takeWhile isDigitCh) : ℚ) := by
  rw [pyFloatPos, h]

theorem pyFloatPos_of_drop_dot {cs frac : List Char}
    (h : cs.dropWhile isDigitCh = '.' :: frac) :
    pyFloatPos cs = (digitsToNat (cs.takeWhile isDigitCh) : ℚ) +
      (digitsToNat frac : ℚ) / 10 ^ frac.length := by
  rw [pyFloatPos, h]
  rfl

/-- The value `float` assigns to a nonnegative numeral. -/
theorem pyFloatPos_dec (I F : List Char) (_hI : I ≠ [])
    (hID : ∀ x ∈ I, isDigitCh x = true) (hFD : ∀ x ∈ F, isDigitCh x = true) :
    pyFloatPos (I ++ fracChars F) =
      (digitsToNat I : ℚ) + (digitsToNat F : ℚ) / 10 ^ F.length := by
  have hhead : headNot isDigitCh (fracChars F) := by
    cases F with
    | nil => simp [fracChars_nil, headNot]
    | cons f0 F2 => rw [fracChars_cons]; simp only [headNot]; decide
  have htw := takeWhile_append_all hID hhead
  cases F with
  | nil =>
      rw [pyFloatPos_of_drop_nil (by rw [htw.2, fracChars_nil]), htw.1]
      simp [digitsToNat]
  | cons f0 F2 =>
      rw [pyFloatPos_of_drop_dot (by rw [htw.2, fracChars_cons]), htw.1]

/-- The value `float` assigns to a plain decimal numeral. -/
theorem pyFloat_dec (neg : Bool) (I F : List Char) (hI : I ≠ [])
    (hID : ∀ x ∈ I, isDigitCh x = true) (hFD : ∀ x ∈ F, isDigitCh x = true) :
    pyFloat (decChars neg I F) =
      (if neg then (-1 : ℚ) else 1) *
        ((digitsToNat I : ℚ) + (digitsToNat F : ℚ) / 10 ^ F.length) := by
  cases neg with
  | true =>
      have he : decChars true I F = '-' :: (I ++ fracChars F) := by simp [decChars]
      rw [he, pyFloat]
      simp [pyFloatPos_dec I F hI hID hFD]
  | false =>
      obtain ⟨i0, I2, rfl⟩ : ∃ a t, I = a :: t := by
        cases I with
        | nil => exact absurd rfl hI
        | cons a t => exact ⟨a, t, rfl⟩
      have he : decChars false (i0 :: I2) F = i0 :: (I2 ++ fracChars F) := by
        simp [decChars]
      have hd := digit_bounds (hID i0 (by simp))
      rw [he, pyFloat, if_neg (by omega)]
      have he2 : i0 :: (I2 ++ fracChars F) = (i0 :: I2) ++ fracChars F := by simp
      rw [he2, pyFloatPos_dec (i0 :: I2) F hI hID hFD]
      simp

/-! Decimal-digit algebra for the rendering round trips. -/

theorem digitsToNat_from (init : ℕ) (l : List Char) :
    l.foldl (fun n c => 10 * n + digitVal c) init =
      init * 10 ^ l.length + digitsToNat l := by
  induction l generalizing init with
  | nil => simp [digitsToNat]
  | cons x t ih =>
      have h1 : digitsToNat (x :: t) = digitVal x * 10 ^ t.length + digitsToNat t := by
        simp only [digitsToNat, List.foldl_cons]
        rw [ih (10 * 0 + digitVal x)]
        simp only [digitsToNat]
        ring
      simp only [List.foldl_cons]
      rw [ih (10 * init + digitVal x), h1, List.length_cons, pow_succ]
      simp only [digitsToNat]
      ring

theorem digitsToNat_append (a b : List Char) :
    digitsToNat (a ++ b) = digitsToNat a * 10 ^ b.length + digitsToNat b := by
  simp only [digitsToNat, List.foldl_append]
  rw [digitsToNat_from]
  simp only [digitsToNat]

theorem digitVal_digitChar {m : ℕ} (h : m < 10) : digitVal (digitChar m) = m := by
  interval_cases m <;> decide

theorem digitChar_isDigit {m : ℕ} (h : m < 10) : isDigitCh (digitChar m) = true := by
  interval_cases m <;> decide

theorem natDigsAux_spec (f : ℕ) : ∀ n, n ≤ f →
    (∀ c ∈ natDigsAux f n, isDigitCh c = true) ∧
      digitsToNat (natDigsAux f n) = n := by
  induction f with
  | zero =>
      intro n hn
      interval_cases n
      simp [natDigsAux, digitsToNat]
  | succ f ih =>
      intro n hn
      match n with
      | 0 => simp [natDigsAux, digitsToNat]
      | m + 1 =>
          have hdiv : (m + 1) / 10 ≤ f := by omega
          obtain ⟨ihd, ihv⟩ := ih ((m + 1) / 10) hdiv
          have hmod : (m + 1) % 10 < 10 := Nat.mod_lt _ (by omega)
          constructor
          · intro c hc
            rw [natDigsAux] at hc
            rcases List.mem_append.mp hc with hc | hc
            · exact ihd c hc
            · rw [List.mem_singleton] at hc
              subst hc
              exact digitChar_isDigit hmod
          · rw [natDigsAux, digitsToNat_append, ihv]
            have hone : digitsToNat [digitChar ((m + 1) % 10)] = (m + 1) % 10 := by
              simp [digitsToNat, digitVal_digitChar hmod]
            rw [hone]
            simp only [List.length_singleton, pow_one]
            omega

theorem natDigs_digits (n : ℕ) : ∀ c ∈ natDigs n, isDigitCh c = true := by
  rw [natDigs]
  split
  · intro c hc; rw [List.mem_singleton] at hc; subst hc; decide
  · exact (natDigsAux_spec (n + 1) n (by omega)).1

theorem natDigs_val (n : ℕ) : digitsToNat (natDigs n) = n := by
  rw [natDigs]
  split
  · rename_i h
    subst h
    decide
  · exact (natDigsAux_spec (n + 1) n (by omega)).2

theorem natDigs_ne_nil (n : ℕ) : natDigs n ≠ [] := by
  rw [natDigs]
  split
  · simp
  · rename_i h
    match hm : n, h with
    | m + 1, _ =>
        rw [natDigsAux]
        simp

theorem pad4_digits (n : ℕ) : ∀ c ∈ pad4 n, isDigitCh c = true := by
  intro c hc
  simp only [pad4, List.mem_cons, List.mem_singleton, List.not_mem_nil, or_false] at hc
  rcases hc with hc | hc | hc | hc <;>
    (subst hc; exact digitChar_isDigit (Nat.mod_lt _ (by omega)))

theorem pad4_val {n : ℕ} (h : n < 10000) : digitsToNat (pad4 n) = n := by
  simp only [pad4, digitsToNat, List.foldl_cons, List.foldl_nil,
    digitVal_digitChar (Nat.mod_lt _ (show 0 < 10 by omega))]
  omega

theorem pad4_length (n : ℕ) : (pad4 n).length = 4 := rfl

theorem digitsToNat_replicate_zero (z : ℕ) :
    digitsToNat (List.replicate z '0') = 0 := by
  induction z with
  | zero => rfl
  | succ z ih =>
      rw [List.replicate_succ, show ('0' :: List.replicate z '0') =
        ['0'] ++ List.replicate z '0' from rfl, digitsToNat_append, ih]
      simp [digitsToNat, digitVal]

theorem strip0_spec (l : List Char) (hne : l ≠ [])
    (hl : ∀ c ∈ l, isDigitCh c = true) :
    ∃ z, l = strip0 l ++ List.replicate z '0' ∧ strip0 l ≠ [] ∧
      (∀ c ∈ strip0 l, isDigitCh c = true) := by
  have hsplit : l.reverse.takeWhile (fun c => c = '0') ++
      l.reverse.dropWhile (fun c => c = '0') = l.reverse :=
    List.takeWhile_append_dropWhile _ l.reverse
  have htake : l.reverse.takeWhile (fun c => c = '0') =
      List.replicate (l.reverse.takeWhile (fun c => c = '0')).length '0' := by
    rw [List.eq_replicate_iff]
    refine ⟨rfl, fun b hb => ?_⟩
    have := List.mem_takeWhile_imp hb
    simpa using this
  rcases hrev : (l.reverse.dropWhile (fun c => c = '0')).reverse with _ | ⟨y, t2⟩
  · have hdrop : l.reverse.dropWhile (fun c => c = '0') = [] := by
      rwa [List.reverse_eq_nil_iff] at hrev
    have hs0 : strip0 l = ['0'] := by rw [strip0, hrev]
    have hall : l.reverse =
        List.replicate (l.reverse.takeWhile (fun c => c = '0')).length '0' := by
      conv_lhs => rw [← hsplit, hdrop, List.append_nil, htake]
    set k := (l.reverse.takeWhile (fun c => c = '0')).length with hkdef
    have hl2 : l = List.replicate k '0' := by
      have h2 := congrArg List.reverse hall
      rwa [List.reverse_reverse, List.reverse_replicate] at h2
    have hk : k ≠ 0 := by
      intro h0
      rw [h0] at hl2
      exact hne (by simpa using hl2)
    refine ⟨k - 1, ?_, ?_, ?_⟩
    · rw [hs0, hl2, List.singleton_append, ← List.replicate_succ]
      congr 1
      omega
    · rw [hs0]; simp
    · rw [hs0]
      intro c hc
      rw [List.mem_singleton] at hc
      subst hc
      decide
  · have hs0 : strip0 l = y :: t2 := by rw [strip0, hrev]
    have hdrop : l.reverse.dropWhile (fun c => c = '0') = (y :: t2).reverse := by
      have h2 := congrArg List.reverse hrev
      rwa [List.reverse_reverse] at h2
    refine ⟨(l.reverse.takeWhile (fun c => c = '0')).length, ?_, ?_, ?_⟩
    · rw [hs0]
      conv_lhs => rw [← List.reverse_reverse l, ← hsplit]
      rw [List.reverse_append, hdrop, List.reverse_reverse, htake,
        List.reverse_replicate]
      simp
    · rw [hs0]; simp
    · rw [hs0]
      intro c hc
      apply hl
      have hmem : c ∈ l.reverse.dropWhile (fun c => c = '0') := by
        rw [hdrop, List.mem_reverse]
        exact hc
      have hsub : List.Sublist (l.reverse.dropWhile (fun c => c = '0'))
          l.reverse := List.dropWhile_sublist _
      have hc2 : c ∈ l.reverse := hsub.mem hmem
      simpa using hc2

/-! Facts about round-half-even and `round(_, 4)`. -/

theorem rhe_intCast (z : ℤ) : rhe (z : ℚ) = z := by
  rw [rhe]
  simp

theorem rhe_nonneg {q : ℚ} (h : 0 ≤ q) : 0 ≤ rhe q := by
  rw [rhe]
  have hf : (0 : ℤ) ≤ ⌊q⌋ := Int.floor_nonneg.mpr h
  split
  · exact hf
  · split
    · omega
    · split <;> omega

theorem rhe_le_of_le {q : ℚ} {N : ℤ} (h : q ≤ N) : rhe q ≤ N := by
  have hfl : ⌊q⌋ ≤ N := by
    calc ⌊q⌋ ≤ ⌊(N : ℚ)⌋ := Int.floor_le_floor h
    _ = N := Int.floor_intCast N
  rw [rhe]
  split
  · exact hfl
  · have hne : ⌊q⌋ ≠ N := by
      intro he
      have h1 : (N : ℚ) ≤ q := by
        rw [← he]
        exact Int.floor_le q
      have h2 : q = (N : ℚ) := le_antisymm h h1
      rename_i hr
      rw [h2] at hr
      simp at hr
    split
    · omega
    · split <;> omega

theorem rhe_err (q : ℚ) : |(rhe q : ℚ) - q| ≤ 1 / 2 := by
  have hfl : (⌊q⌋ : ℚ) ≤ q := Int.floor_le q
  have hfu : q < ⌊q⌋ + 1 := Int.lt_floor_add_one q
  rw [rhe]
  split
  · rename_i hr
    rw [abs_le]
    constructor <;> linarith
  · rename_i hr
    push_neg at hr
    split
    · rename_i hr2
      push_cast
      rw [abs_le]
      constructor <;> linarith
    · rename_i hr2
      push_neg at hr2
      have he : q - ⌊q⌋ = 1 / 2 := le_antisymm hr2 hr
      split
      · rw [abs_le]; constructor <;> linarith
      · push_cast
        rw [abs_le]
        constructor <;> linarith

theorem rhe_neg (q : ℚ) : rhe (-q) = -rhe q := by
  by_cases hz : q - ⌊q⌋ = 0
  · have hq : q = (⌊q⌋ : ℚ) := by linarith
    rw [hq, ← Int.cast_neg, rhe_intCast, rhe_intCast]
  · have hfl : (⌊q⌋ : ℚ) ≤ q := Int.floor_le q
    have hfu : q < ⌊q⌋ + 1 := Int.lt_floor_add_one q
    have hlt : (⌊q⌋ : ℚ) < q := by
      rcases hfl.lt_or_eq with hlt | heq
      · exact hlt
      · exact absurd (by linarith : q - (⌊q⌋ : ℚ) = 0) hz
    have hnegfloor : ⌊-q⌋ = -⌊q⌋ - 1 := by
      apply Int.floor_eq_iff.mpr
      constructor
      · push_cast
        linarith
      · push_cast
        linarith
    rw [rhe, rhe, hnegfloor]
    have hrel : -q - ((-⌊q⌋ - 1 : ℤ) : ℚ) = 1 - (q - ⌊q⌋) := by
      push_cast
      ring
    rw [hrel]
    split_ifs <;>
      first
        | (exfalso; linarith)
        | (exfalso; omega)
        | linarith

theorem round4_den_one (q : ℚ) : round4 q * 10000 = ((rhe (q * 10000) : ℤ) : ℚ) := by
  rw [round4]
  field_simp

theorem round4_of_den_one {q : ℚ} (h : (q * 10000).den = 1) : round4 q = q := by
  have hz : ((q * 10000).num : ℚ) = q * 10000 := by
    rw [← Rat.den_eq_one_iff]
    exact h
  rw [round4, ← hz, rhe_intCast, hz]
  field_simp

theorem round4_nonneg {q : ℚ} (h : 0 ≤ q) : 0 ≤ round4 q := by
  rw [round4]
  have := @rhe_nonneg (q * 10000) (by positivity)
  positivity

theorem round4_le_of_le {q : ℚ} {N : ℤ} (h : q ≤ N) : round4 q ≤ N := by
  rw [round4]
  rw [div_le_iff₀ (by norm_num)]
  have hle : rhe (q * 10000) ≤ N * 10000 := by
    apply rhe_le_of_le
    push_cast
    nlinarith
  calc ((rhe (q * 10000) : ℤ) : ℚ) ≤ ((N * 10000 : ℤ) : ℚ) := by exact_mod_cast hle
  _ = N * 10000 := by push_cast; ring

theorem round4_err (q : ℚ) : |round4 q - q| ≤ 1 / 20000 := by
  rw [round4]
  have h := rhe_err (q * 10000)
  rw [show ((rhe (q * 10000) : ℤ) : ℚ) / 10000 - q =
      (((rhe (q * 10000) : ℤ) : ℚ) - q * 10000) / 10000 from by ring]
  rw [abs_div]
  rw [show |(10000 : ℚ)| = 10000 from by norm_num]
  rw [div_le_iff₀ (by norm_num)]
  linarith

theorem round4_neg (q : ℚ) : round4 (-q) = -round4 q := by
  rw [round4, round4, show -q * 10000 = -(q * 10000) from by ring, rhe_neg]
  push_cast
  ring

theorem round4_mul_den_one (q : ℚ) : (round4 q * 10000).den = 1 := by
  rw [round4_den_one]
  exact Rat.den_intCast _

/-! Correctness of the float rendering `pyFloatStr`. -/

theorem floor_frac_nonneg (a : ℚ) : 0 ≤ a - ⌊a⌋ := by
  linarith [Int.floor_le a]

theorem floor_frac_lt_one (a : ℚ) : a - ⌊a⌋ < 1 := by
  linarith [Int.lt_floor_add_one a]

theorem fracNat_lt (a : ℚ) : fracNat a < 10000 := by
  rw [fracNat]
  have h1 : (a - ⌊a⌋) * 10000 < 10000 := by nlinarith [floor_frac_lt_one a]
  have h2 : ⌊(a - ⌊a⌋) * 10000⌋ < 10000 := by
    by_contra hc
    push_neg at hc
    have h3 : ((10000 : ℤ) : ℚ) ≤ ⌊(a - ⌊a⌋) * 10000⌋ := by exact_mod_cast hc
    have h4 := Int.floor_le ((a - ⌊a⌋) * 10000)
    push_cast at h3
    linarith
  omega

theorem fracNat_cast {a : ℚ} (ha4 : (a * 10000).den = 1) :
    (fracNat a : ℚ) = (a - ⌊a⌋) * 10000 := by
  have hnum : ((a * 10000).num : ℚ) = a * 10000 :=
    Rat.coe_int_num_of_den_eq_one ha4
  have hx : (a - ⌊a⌋) * 10000 = (((a * 10000).num - ⌊a⌋ * 10000 : ℤ) : ℚ) := by
    push_cast
    rw [hnum]
    ring
  have hx0z : (0 : ℤ) ≤ (a * 10000).num - ⌊a⌋ * 10000 := by
    have hge : (0 : ℚ) ≤ (((a * 10000).num - ⌊a⌋ * 10000 : ℤ) : ℚ) := by
      rw [← hx]
      nlinarith [floor_frac_nonneg a]
    exact_mod_cast hge
  rw [fracNat, hx, Int.floor_intCast]
  have ht := congrArg (fun z : ℤ => (z : ℚ)) (Int.toNat_of_nonneg hx0z)
  simp only [Int.cast_natCast] at ht
  rw [ht]

theorem pad4_ne_nil (n : ℕ) : pad4 n ≠ [] := by
  simp [pad4]

/-- The rendered float string of a four-decimal value is a plain decimal
numeral whose parsed value is the original. -/
theorem pyFloatStr_shape (q : ℚ) (h4 : (q * 10000).den = 1) :
    ∃ I F, I ≠ [] ∧ (∀ c ∈ I, isDigitCh c = true) ∧ F ≠ [] ∧
      (∀ c ∈ F, isDigitCh c = true) ∧
      (pyFloatStr q).data = decChars (decide (q < 0)) I F ∧
      pyFloat (decChars (decide (q < 0)) I F) = q := by
  have ha0 : 0 ≤ |q| := abs_nonneg q
  have ha4 : (|q| * 10000).den = 1 := by
    rcases abs_cases q with ⟨he, _⟩ | ⟨he, _⟩
    · rw [he]; exact h4
    · rw [he, neg_mul]
      rw [Rat.neg_den]
      exact h4
  have hfl0 : 0 ≤ ⌊|q|⌋ := Int.floor_nonneg.mpr ha0
  obtain ⟨z, hsplit, hFne, hFdig⟩ :=
    strip0_spec (pad4 (fracNat |q|)) (pad4_ne_nil _) (pad4_digits _)
  refine ⟨natDigs ⌊|q|⌋.toNat, strip0 (pad4 (fracNat |q|)), natDigs_ne_nil _,
    natDigs_digits _, hFne, hFdig, ?_, ?_⟩
  · show (if q < 0 then ['-'] else []) ++ natDigs ⌊|q|⌋.toNat ++
      '.' :: strip0 (pad4 (fracNat |q|)) = _
    rw [decChars]
    have hfr : fracChars (strip0 (pad4 (fracNat |q|))) =
        '.' :: strip0 (pad4 (fracNat |q|)) := by
      rw [fracChars, if_neg hFne]
    rw [hfr]
    by_cases hq : q < 0
    · rw [if_pos hq, if_pos (by simpa using hq)]
      simp
    · rw [if_neg hq, if_neg (by simpa using hq)]
      simp
  · rw [pyFloat_dec _ _ _ (natDigs_ne_nil _) (natDigs_digits _) hFdig]
    have hlen : (strip0 (pad4 (fracNat |q|))).length + z = 4 := by
      have := congrArg List.length hsplit
      simpa [pad4_length] using this.symm
    have hval : digitsToNat (strip0 (pad4 (fracNat |q|))) * 10 ^ z =
        fracNat |q| := by
      have := pad4_val (fracNat_lt |q|)
      rw [hsplit, digitsToNat_append, digitsToNat_replicate_zero,
        List.length_replicate] at this
      omega
    have hI : (digitsToNat (natDigs ⌊|q|⌋.toNat) : ℚ) = (⌊|q|⌋ : ℚ) := by
      rw [natDigs_val]
      exact_mod_cast congrArg (fun z : ℤ => (z : ℚ)) (Int.toNat_of_nonneg hfl0)
    have hF : (digitsToNat (strip0 (pad4 (fracNat |q|))) : ℚ) /
        10 ^ (strip0 (pad4 (fracNat |q|))).length = |q| - ⌊|q|⌋ := by
      have hcast : (digitsToNat (strip0 (pad4 (fracNat |q|))) : ℚ) * 10 ^ z =
          (fracNat |q| : ℚ) := by exact_mod_cast hval
      have hfc := fracNat_cast ha4
      rw [div_eq_iff (by positivity)]
      have h10 : (10 : ℚ) ^ (strip0 (pad4 (fracNat |q|))).length * 10 ^ z =
          10000 := by
        rw [← pow_add, hlen]
        norm_num
      have hkey : (digitsToNat (strip0 (pad4 (fracNat |q|))) : ℚ) * 10 ^ z =
          ((|q| - ⌊|q|⌋) * 10 ^ (strip0 (pad4 (fracNat |q|))).length) * 10 ^ z := by
        rw [hcast, hfc]
        rw [show ((|q| - ⌊|q|⌋) * 10 ^ (strip0 (pad4 (fracNat |q|))).length) *
            10 ^ z = (|q| - ⌊|q|⌋) *
            (10 ^ (strip0 (pad4 (fracNat |q|))).length * 10 ^ z) from by ring,
          h10]
      exact mul_right_cancel₀ (by positivity) hkey
    rw [hI, hF]
    by_cases hq : q < 0
    · rw [if_pos (by simpa using hq)]
      have habs : |q| = -q := abs_of_neg hq
      rw [show (⌊|q|⌋ : ℚ) + (|q| - ⌊|q|⌋) = |q| from by ring, habs]
      ring
    · rw [if_neg (by simpa using hq)]
      have habs : |q| = q := abs_of_nonneg (by linarith [not_lt.mp hq])
      rw [show (⌊|q|⌋ : ℚ) + (|q| - ⌊|q|⌋) = |q| from by ring, habs]
      ring

/-! Pipeline lemmas: cleaning a plain decimal numeral. -/

theorem decChars_chars {neg : Bool} {I F : List Char}
    (hID : ∀ x ∈ I, isDigitCh x = true) (hFD : ∀ x ∈ F, isDigitCh x = true) :
    ∀ c ∈ decChars neg I F, isDigitCh c = true ∨ c = '-' ∨ c = '.' := by
  intro c hc
  cases neg with
  | true =>
      simp [decChars] at hc
      rcases hc with hc | hc | hc
      · exact Or.inr (Or.inl hc)
      · exact Or.inl (hID c hc)
      · cases F with
        | nil => simp [fracChars_nil] at hc
        | cons f0 F2 =>
            rw [fracChars_cons] at hc
            rcases List.mem_cons.mp hc with hc | hc
            · exact Or.inr (Or.inr hc)
            · exact Or.inl (hFD c hc)
  | false =>
      simp [decChars] at hc
      rcases hc with hc | hc
      · exact Or.inl (hID c hc)
      · cases F with
        | nil => simp [fracChars_nil] at hc
        | cons f0 F2 =>
            rw [fracChars_cons] at hc
            rcases List.mem_cons.mp hc with hc | hc
            · exact Or.inr (Or.inr hc)
            · exact Or.inl (hFD c hc)

/-- A decimal numeral is not in the null-value set (every null string is
empty or contains a character that is not a digit, minus, or dot). -/
theorem decStr_not_null {neg : Bool} {I F : List Char} (hI : I ≠ [])
    (hID : ∀ x ∈ I, isDigitCh x = true) (hFD : ∀ x ∈ F, isDigitCh x = true) :
    isNullVal (.str ⟨decChars neg I F⟩) = false := by
  have key : ∀ t ∈ NULL_STRS, t.data = [] ∨
      ∃ c ∈ t.data, isDigitCh c = false ∧ ¬(c = '-') ∧ ¬(c = '.') := by decide
  rw [isNullVal]
  by_contra hc
  rw [Bool.not_eq_false] at hc
  obtain ⟨t, htmem, hbeq⟩ := List.contains_iff_exists_mem_beq.mp hc
  have heq : (⟨decChars neg I F⟩ : String) = t := eq_of_beq hbeq
  have hdata : t.data = decChars neg I F := by rw [← heq]
  rcases key t htmem with hnil | ⟨c, hct, hbad1, hbad2, hbad3⟩
  · rw [hdata] at hnil
    cases neg with
    | true => simp [decChars] at hnil
    | false =>
        simp [decChars] at hnil
        exact hI hnil.1
  · rw [hdata] at hct
    rcases decChars_chars hID hFD c hct with hd | hd | hd
    · rw [hd] at hbad1; exact absurd hbad1 (by simp)
    · exact hbad2 hd
    · exact hbad3 hd

/-- The shared rejection test passes on a match that captured only a degree
field. -/
theorem grpReject_plain (X : List Char) :
    grpReject ⟨none, some X, none, none, none, none, none, none, none, none⟩ =
      false := by
  simp [grpReject, minsVal, hemOf]

theorem ddsOfG_plain (X : List Char) :
    ddsOfG ⟨none, some X, none, none, none, none, none, none, none, none⟩ =
      pyFloat X := by
  simp [ddsOfG, degVal, minsVal]

/-- The single-coordinate `"dd"` rendering when no hemisphere letter was
captured: the output is `round4` of the signed decimal-degree value (the sign
re-applied through the inferred hemisphere cancels the absolute value). -/
theorem singleFlowFormat_noHem_dd (g : MatchGroups) (hor : String)
    (hhem : hemOf g = none)
    (hb : (hor = "lat" ∧ |ddsOfG g| ≤ 90) ∨ (hor = "long" ∧ |ddsOfG g| ≤ 180)) :
    singleFlowFormat g "dd" hor = .singleDD (round4 (ddsOfG g)) := by
  rcases hb with ⟨hhor, hbound⟩ | ⟨hhor, hbound⟩
  · subst hhor
    by_cases hd : 0 ≤ ddsOfG g
    · have h1 : ¬(90 < ddsOfG g) := by
        push_neg
        exact le_trans (le_abs_self _) hbound
      simp [singleFlowFormat, hhem, inferHem, hd, abs_of_nonneg hd, h1]
    · have hd2 : ddsOfG g < 0 := not_le.mp hd
      have h1 : ¬(90 < -ddsOfG g) := by
        push_neg
        exact le_trans (neg_le_abs _) hbound
      simp [singleFlowFormat, hhem, inferHem, hd, abs_of_neg hd2, round4_neg, h1]
  · subst hhor
    by_cases hd : 0 ≤ ddsOfG g
    · have h1 : ¬(180 < ddsOfG g) := by
        push_neg
        exact le_trans (le_abs_self _) hbound
      simp [singleFlowFormat, hhem, inferHem, hd, abs_of_nonneg hd, h1]
    · have hd2 : ddsOfG g < 0 := not_le.mp hd
      have h1 : ¬(180 < -ddsOfG g) := by
        push_neg
        exact le_trans (neg_le_abs _) hbound
      simp [singleFlowFormat, hhem, inferHem, hd, abs_of_neg hd2, round4_neg, h1]

/-- The single-coordinate validation when no hemisphere letter was captured
and the value is in range. -/
theorem singleFlowCheck_noHem (g : MatchGroups) (hor : String)
    (hhem : hemOf g = none)
    (hb : (hor = "lat" ∧ |ddsOfG g| ≤ 90) ∨ (hor = "long" ∧ |ddsOfG g| ≤ 180)) :
    singleFlowCheck g hor = true := by
  rcases hb with ⟨hhor, hbound⟩ | ⟨hhor, hbound⟩ <;> subst hhor <;>
    rw [abs_le] at hbound <;> by_cases hd : 0 ≤ ddsOfG g <;>
    simp [singleFlowCheck, hhem, inferHem, hd, hbound.1, hbound.2]

/-- Cleaning a plain decimal numeral in `"dd"` format yields its rounded
value, and validation accepts it, for an in-range value on either axis. -/
theorem cleanDecimal (neg : Bool) (I F : List Char) (split : Bool) (hor : String)
    (hI : I ≠ []) (hID : ∀ x ∈ I, isDigitCh x = true)
    (hFD : ∀ x ∈ F, isDigitCh x = true)
    (hb : (hor = "lat" ∧ |pyFloat (decChars neg I F)| ≤ 90) ∨
          (hor = "long" ∧ |pyFloat (decChars neg I F)| ≤ 180)) :
    formatLatLong (.str ⟨decChars neg I F⟩) "dd" split hor =
      .singleDD (round4 (pyFloat (decChars neg I F))) ∧
    checkLatLong (.str ⟨decChars neg I F⟩) hor = true := by
  have hnull := @decStr_not_null neg I F hI hID hFD
  have hmatch := pyMatch_dec neg I F hI hID hFD
  constructor
  · rw [formatLatLong, if_neg (by simp [hnull])]
    show (match pyMatch ⟨decChars neg I F⟩ with
      | none => Outcome.unknown
      | some g => match g.deg with
        | none => Outcome.unknown
        | some _ =>
            if grpReject g then Outcome.unknown
            else match g.deg2 with
              | none => singleFlowFormat g "dd" hor
              | some _ => pairFlowFormat g "dd" split) = _
    rw [hmatch]
    show (if grpReject _ then Outcome.unknown else _) = _
    rw [if_neg (by simp [grpReject_plain])]
    show singleFlowFormat _ "dd" hor = _
    rw [singleFlowFormat_noHem_dd _ hor (by simp [hemOf]) (by
      rwa [ddsOfG_plain]), ddsOfG_plain]
  · rw [checkLatLong, if_neg (by simp [hnull])]
    show (match pyMatch ⟨decChars neg I F⟩ with
      | none => false
      | some g => match g.deg with
        | none => false
        | some _ =>
            if grpReject g then false
            else match g.deg2 with
              | none => singleFlowCheck g hor
              | some _ => !pairReject g) = _
    rw [hmatch]
    show (if grpReject _ then false else _) = _
    rw [if_neg (by simp [grpReject_plain])]
    show singleFlowCheck _ hor = _
    rw [singleFlowCheck_noHem _ hor (by simp [hemOf]) (by rwa [ddsOfG_plain])]

/-! Claim theorems. -/

/-- C3: the axis bounds are inclusive.  `"90 N"` validates as a latitude and
cleans to 90, `"90.0001 N"` is rejected; `"180 E"` validates as a longitude
and cleans to 180, `"180.0001 E"` is rejected. -/
theorem claim_C3 :
    validateLatLong (.str "90 N") "lat" = true ∧
    validateLatLong (.str "90.0001 N") "lat" = false ∧
    validateLatLong (.str "180 E") "long" = true ∧
    validateLatLong (.str "180.0001 E") "long" = false ∧
    formatLatLong (.str "90 N") "dd" false "lat" = .singleDD 90 ∧
    formatLatLong (.str "90.0001 N") "dd" false "lat" = .unknown ∧
    formatLatLong (.str "180 E") "dd" false "long" = .singleDD 180 ∧
    formatLatLong (.str "180.0001 E") "dd" false "long" = .unknown := by
  decide

/-- C5: cleaning the paired input `"40.7128 N, 74.0060 W"` with `split` set
and `"dd"` output yields latitude 40.7128 and longitude -74.006 (the sign of
each component derived from its hemisphere letter). -/
theorem claim_C5 :
    cleanList [.str "40.7128 N, 74.0060 W"] "dd" true "lat" =
      [.pairDD (407128 / 10000 : ℚ) (-(740060 / 10000) : ℚ)] ∧
    formatLatLong (.str "40.7128 N, 74.0060 W") "dd" true "lat" =
      .pairDD (407128 / 10000 : ℚ) (-(74006 / 1000) : ℚ) :=
  ⟨by decide, by decide⟩

/-- C6: every input in the configured null-value set produces the `Null`
outcome for every output format, split mode and axis (the grammar is never
consulted), bumps the null counter and not the unknown counter, and fails
validation. -/
theorem claim_C6 (val : CellVal) (fmt : String) (split : Bool) (hor : String)
    (h : isNullVal val = true) :
    formatLatLong val fmt split hor = .nullNaN ∧
    statsOf (cleanList [val] fmt split hor) = (1, 0) ∧
    checkLatLong val hor = false := by
  have h1 : formatLatLong val fmt split hor = .nullNaN := by
    rw [formatLatLong, if_pos (by simp [h])]
  refine ⟨h1, ?_, ?_⟩
  · simp [cleanList, statsOf, h1, statsDelta]
  · rw [checkLatLong, if_pos (by simp [h])]

theorem claim_C6_witness :
    formatLatLong (.str "NA") "dd" false "lat" = .nullNaN ∧
    statsOf (cleanList [.str "NA"] "dd" false "lat") = (1, 0) ∧
    checkLatLong (.str "NA") "lat" = false :=
  claim_C6 (.str "NA") "dd" false "lat" (by decide)

/-- C7: the malformed text `"not a coordinate"` fails the grammar; under the
`coerce` policy the outcome is the unparseable null marker, under the
spec-modelled `ignore` policy the original text passes through unchanged, and
in both cases the unknown counter (not the null counter) is bumped. -/
theorem claim_C7 :
    cleanCellPol (.str "not a coordinate") "dd" false "lat" .coerceP =
      (.unknown, (0, 1)) ∧
    cleanCellPol (.str "not a coordinate") "dd" false "lat" .ignoreP =
      (.kept "not a coordinate", (0, 1)) := by
  decide

/-- C10: with a horizontal-axis string other than `"lat"` or `"long"`, a
single matched coordinate with minutes and seconds in `[0, 60)` and no
hemisphere conflict validates regardless of degree magnitude; in particular
`validate_lat_long("999", "x")` is true. -/
theorem claim_C10 :
    (∀ (val : CellVal) (g : MatchGroups) (hor : String),
      hor ≠ "lat" → hor ≠ "long" →
      isNullVal val = false →
      pyMatch (cellStr val) = some g →
      g.deg.isSome = true →
      g.deg2 = none →
      (0 ≤ minsVal g.mins ∧ minsVal g.mins < 60) →
      (0 ≤ minsVal g.secs ∧ minsVal g.secs < 60) →
      (∀ h, hemOf g = some h →
        (h = ['N'] ∨ h = ['S'] ∨ h = ['E'] ∨ h = ['W']) ∧ 0 ≤ degVal g) →
      ¬(g.dirBack.isSome = true ∧ g.dirFront.isSome = true) →
      validateLatLong val hor = true) ∧
    validateLatLong (.str "999") "x" = true := by
  constructor
  · intro val g hor hlat hlong hnull hm hdeg hdeg2 hmins hsecs hhem hdirs
    obtain ⟨dg, hdg⟩ := Option.isSome_iff_exists.mp hdeg
    have hrej : grpReject g = false := by
      have e4 : (g.dirBack.isSome && g.dirFront.isSome) = false := by
        rcases hb : g.dirBack.isSome with _ | _ <;>
          rcases hf : g.dirFront.isSome with _ | _ <;> simp_all
      cases hh : hemOf g with
      | none => simp [grpReject, hh, hmins.1, hmins.2, hsecs.1, hsecs.2, e4]
      | some hv =>
          obtain ⟨hin, hpos⟩ := hhem hv hh
          rcases hin with h1 | h1 | h1 | h1 <;> subst h1 <;>
            simp [grpReject, hh, hmins.1, hmins.2, hsecs.1, hsecs.2, e4,
              not_lt.mpr hpos]
    rw [validateLatLong, checkLatLong, if_neg (by simp [hnull])]
    show (match pyMatch (cellStr val) with
      | none => false
      | some g => match g.deg with
        | none => false
        | some _ =>
            if grpReject g then false
            else match g.deg2 with
              | none => singleFlowCheck g hor
              | some _ => !pairReject g) = true
    rw [hm]
    show (match g.deg with
      | none => false
      | some _ =>
          if grpReject g then false
          else match g.deg2 with
            | none => singleFlowCheck g hor
            | some _ => !pairReject g) = true
    rw [hdg]
    show (if grpReject g then false
      else match g.deg2 with
        | none => singleFlowCheck g hor
        | some _ => !pairReject g) = true
    rw [if_neg (by simp [hrej]), hdeg2]
    show singleFlowCheck g hor = true
    rw [singleFlowCheck, if_neg hlat, if_neg hlong]
  · decide

theorem claim_C10_witness : validateLatLong (.str "999") "x" = true :=
  claim_C10.1 (.str "999")
    ⟨none, some ['9', '9', '9'], none, none, none, none, none, none, none, none⟩
    "x" (by decide) (by decide) (by decide) (by decide) (by decide) (by decide)
    (by norm_num [minsVal]) (by norm_num [minsVal])
    (by intro h hh; exact absurd hh (by simp [hemOf])) (by simp)

/-! Unfolding helpers for the two entry points on a matched input. -/

theorem checkLatLong_of_reject {val : CellVal} {hor : String} {g : MatchGroups}
    (hm : pyMatch (cellStr val) = some g) (hrej : grpReject g = true) :
    checkLatLong val hor = false := by
  by_cases hnull : isNullVal val = true
  · rw [checkLatLong, if_pos (by simp [hnull])]
  · rw [checkLatLong, if_neg (by simpa using hnull)]
    show (match pyMatch (cellStr val) with
      | none => false
      | some g => match g.deg with
        | none => false
        | some _ =>
            if grpReject g then false
            else match g.deg2 with
              | none => singleFlowCheck g hor
              | some _ => !pairReject g) = false
    rw [hm]
    show (match g.deg with
      | none => false
      | some _ =>
          if grpReject g then false
          else match g.deg2 with
            | none => singleFlowCheck g hor
            | some _ => !pairReject g) = false
    cases hdg : g.deg with
    | none => rfl
    | some dg =>
        show (if grpReject g then false
          else match g.deg2 with
            | none => singleFlowCheck g hor
            | some _ => !pairReject g) = false
        rw [if_pos (by simp [hrej])]

theorem formatLatLong_of_reject {val : CellVal} {fmt : String} {split : Bool}
    {hor : String} {g : MatchGroups} (hnull : isNullVal val = false)
    (hm : pyMatch (cellStr val) = some g) (hrej : grpReject g = true) :
    formatLatLong val fmt split hor = .unknown := by
  rw [formatLatLong, if_neg (by simp [hnull])]
  show (match pyMatch (cellStr val) with
    | none => Outcome.unknown
    | some g => match g.deg with
      | none => Outcome.unknown
      | some _ =>
          if grpReject g then Outcome.unknown
          else match g.deg2 with
            | none => singleFlowFormat g fmt hor
            | some _ => pairFlowFormat g fmt split) = Outcome.unknown
  rw [hm]
  show (match g.deg with
    | none => Outcome.unknown
    | some _ =>
        if grpReject g then Outcome.unknown
        else match g.deg2 with
          | none => singleFlowFormat g fmt hor
          | some _ => pairFlowFormat g fmt split) = Outcome.unknown
  cases hdg : g.deg with
  | none => rfl
  | some dg =>
      show (if grpReject g then Outcome.unknown
        else match g.deg2 with
          | none => singleFlowFormat g fmt hor
          | some _ => pairFlowFormat g fmt split) = Outcome.unknown
      rw [if_pos (by simp [hrej])]

theorem checkLatLong_pair {val : CellVal} {hor : String} {g : MatchGroups}
    {dg dg2 : List Char} (hnull : isNullVal val = false)
    (hm : pyMatch (cellStr val) = some g) (hdg : g.deg = some dg)
    (hrej : grpReject g = false) (hdg2 : g.deg2 = some dg2) :
    checkLatLong val hor = !pairReject g := by
  rw [checkLatLong, if_neg (by simp [hnull])]
  show (match pyMatch (cellStr val) with
    | none => false
    | some g => match g.deg with
      | none => false
      | some _ =>
          if grpReject g then false
          else match g.deg2 with
            | none => singleFlowCheck g hor
            | some _ => !pairReject g) = _
  rw [hm]
  show (match g.deg with
    | none => false
    | some _ =>
        if grpReject g then false
        else match g.deg2 with
          | none => singleFlowCheck g hor
          | some _ => !pairReject g) = _
  rw [hdg]
  show (if grpReject g then false
    else match g.deg2 with
      | none => singleFlowCheck g hor
      | some _ => !pairReject g) = _
  rw [if_neg (by simp [hrej]), hdg2]

theorem formatLatLong_pair {val : CellVal} {fmt : String} {split : Bool}
    {hor : String} {g : MatchGroups} {dg dg2 : List Char}
    (hnull : isNullVal val = false)
    (hm : pyMatch (cellStr val) = some g) (hdg : g.deg = some dg)
    (hrej : grpReject g = false) (hdg2 : g.deg2 = some dg2) :
    formatLatLong val fmt split hor = pairFlowFormat g fmt split := by
  rw [formatLatLong, if_neg (by simp [hnull])]
  show (match pyMatch (cellStr val) with
    | none => Outcome.unknown
    | some g => match g.deg with
      | none => Outcome.unknown
      | some _ =>
          if grpReject g then Outcome.unknown
          else match g.deg2 with
            | none => singleFlowFormat g fmt hor
            | some _ => pairFlowFormat g fmt split) = _
  rw [hm]
  show (match g.deg with
    | none => Outcome.unknown
    | some _ =>
        if grpReject g then Outcome.unknown
        else match g.deg2 with
          | none => singleFlowFormat g fmt hor
          | some _ => pairFlowFormat g fmt split) = _
  rw [hdg]
  show (if grpReject g then Outcome.unknown
    else match g.deg2 with
      | none => singleFlowFormat g fmt hor
      | some _ => pairFlowFormat g fmt split) = _
  rw [if_neg (by simp [hrej]), hdg2]

theorem formatLatLong_single {val : CellVal} {fmt : String} {split : Bool}
    {hor : String} {g : MatchGroups} {dg : List Char}
    (hnull : isNullVal val = false)
    (hm : pyMatch (cellStr val) = some g) (hdg : g.deg = some dg)
    (hrej : grpReject g = false) (hdg2 : g.deg2 = none) :
    formatLatLong val fmt split hor = singleFlowFormat g fmt hor := by
  rw [formatLatLong, if_neg (by simp [hnull])]
  show (match pyMatch (cellStr val) with
    | none => Outcome.unknown
    | some g => match g.deg with
      | none => Outcome.unknown
      | some _ =>
          if grpReject g then Outcome.unknown
          else match g.deg2 with
            | none => singleFlowFormat g fmt hor
            | some _ => pairFlowFormat g fmt split) = _
  rw [hm]
  show (match g.deg with
    | none => Outcome.unknown
    | some _ =>
        if grpReject g then Outcome.unknown
        else match g.deg2 with
          | none => singleFlowFormat g fmt hor
          | some _ => pairFlowFormat g fmt split) = _
  rw [hdg]
  show (if grpReject g then Outcome.unknown
    else match g.deg2 with
      | none => singleFlowFormat g fmt hor
      | some _ => pairFlowFormat g fmt split) = _
  rw [if_neg (by simp [hrej]), hdg2]

/-- C4: a coordinate group carrying both a leading and a trailing hemisphere
letter is rejected (for either group of a pair), and the input
`"40 N 30 S"` in particular is unparseable and fails validation. -/
theorem claim_C4 :
    (∀ (val : CellVal) (hor : String) (g : MatchGroups),
      pyMatch (cellStr val) = some g →
      g.dirFront.isSome = true → g.dirBack.isSome = true →
      checkLatLong val hor = false ∧
      (isNullVal val = false →
        ∀ fmt split, formatLatLong val fmt split hor = .unknown)) ∧
    (∀ (val : CellVal) (hor : String) (g : MatchGroups),
      pyMatch (cellStr val) = some g →
      g.deg2.isSome = true →
      g.dirFront2.isSome = true → g.dirBack2.isSome = true →
      checkLatLong val hor = false ∧
      (isNullVal val = false →
        ∀ fmt split, formatLatLong val fmt split hor = .unknown)) ∧
    checkLatLong (.str "40 N 30 S") "lat" = false ∧
    formatLatLong (.str "40 N 30 S") "dd" false "lat" = .unknown := by
  refine ⟨?_, ?_, by decide, by decide⟩
  · intro val hor g hm hf hb
    have hrej : grpReject g = true := by
      rw [grpReject]
      simp [hf, hb]
    exact ⟨checkLatLong_of_reject hm hrej,
      fun hnull fmt split => formatLatLong_of_reject hnull hm hrej⟩
  · intro val hor g hm hd2 hf2 hb2
    obtain ⟨dg2, hdg2⟩ := Option.isSome_iff_exists.mp hd2
    have hprej : pairReject g = true := by
      rw [pairReject]
      simp [hf2, hb2]
    by_cases hrej : grpReject g = true
    · exact ⟨checkLatLong_of_reject hm hrej,
        fun hnull fmt split => formatLatLong_of_reject hnull hm hrej⟩
    · have hrej2 : grpReject g = false := by simpa using hrej
      constructor
      · by_cases hnull : isNullVal val = true
        · rw [checkLatLong, if_pos (by simp [hnull])]
        · have hnull2 : isNullVal val = false := by simpa using hnull
          cases hdg : g.deg with
          | none =>
              rw [checkLatLong, if_neg (by simp [hnull2])]
              show (match pyMatch (cellStr val) with
                | none => false
                | some g => match g.deg with
                  | none => false
                  | some _ =>
                      if grpReject g then false
                      else match g.deg2 with
                        | none => singleFlowCheck g hor
                        | some _ => !pairReject g) = false
              rw [hm]
              show (match g.deg with
                | none => false
                | some _ =>
                    if grpReject g then false
                    else match g.deg2 with
                      | none => singleFlowCheck g hor
                      | some _ => !pairReject g) = false
              rw [hdg]
          | some dg =>
              rw [checkLatLong_pair hnull2 hm hdg hrej2 hdg2, hprej]
              rfl
      · intro hnull fmt split
        cases hdg : g.deg with
        | none =>
            rw [formatLatLong, if_neg (by simp [hnull])]
            show (match pyMatch (cellStr val) with
              | none => Outcome.unknown
              | some g => match g.deg with
                | none => Outcome.unknown
                | some _ =>
                    if grpReject g then Outcome.unknown
                    else match g.deg2 with
                      | none => singleFlowFormat g fmt hor
                      | some _ => pairFlowFormat g fmt split) = Outcome.unknown
            rw [hm]
            show (match g.deg with
              | none => Outcome.unknown
              | some _ =>
                  if grpReject g then Outcome.unknown
                  else match g.deg2 with
                    | none => singleFlowFormat g fmt hor
                    | some _ => pairFlowFormat g fmt split) = Outcome.unknown
            rw [hdg]
        | some dg =>
            rw [formatLatLong_pair hnull hm hdg hrej2 hdg2, pairFlowFormat,
              if_pos (by simp [hprej])]

theorem claim_C4_witness : checkLatLong (.str "N 40 S") "lat" = false :=
  (claim_C4.1 (.str "N 40 S") "lat"
    ⟨some ['N'], some ['4', '0'], none, none, some ['S'], none, none, none,
      none, none⟩
    (by decide) (by decide) (by decide)).1

/-- C1 counterexample: `"-40 30"` matches the grammar with degree value -40
and minutes 30, passes validation, and cleans to -39.5 = -40 + 30/60; the
claimed sign-preserving value -(|deg| + mins/60 + secs/3600) = -40.5 differs. -/
theorem claim_C1_counterexample :
    pyMatch "-40 30" = some ⟨none, some ['-', '4', '0'], some ['3', '0'], none,
      none, none, none, none, none, none⟩ ∧
    validateLatLong (.str "-40 30") "lat" = true ∧
    formatLatLong (.str "-40 30") "dd" false "lat" = .singleDD (-(79 / 2) : ℚ) ∧
    ¬((-(79 / 2) : ℚ) = -(|(-40 : ℚ)| + 30 / 60 + 0 / 3600)) :=
  ⟨by decide, by decide, by decide, by decide⟩

/-- C1 amended: on a matched single coordinate with no hemisphere letter, the
validator computes the decimal-degree value as the signed sum
`float(deg) + mins/60 + secs/3600` (`ddsOfG`), with the minute and second
contributions always added to the signed degree value rather than mirrored by
its sign; for an in-range value the `"dd"` output is `round4` of exactly that
signed sum, and validation accepts it. -/
theorem claim_C1_amended (val : CellVal) (g : MatchGroups) (hor : String)
    (hnull : isNullVal val = false)
    (hm : pyMatch (cellStr val) = some g)
    (hdeg : g.deg.isSome = true)
    (hdeg2 : g.deg2 = none)
    (hhem : hemOf g = none)
    (hrej : grpReject g = false)
    (hb : (hor = "lat" ∧ |ddsOfG g| ≤ 90) ∨ (hor = "long" ∧ |ddsOfG g| ≤ 180)) :
    ddsOfG g = pyFloat (g.deg.getD []) + minsVal g.mins / 60 +
      minsVal g.secs / 3600 ∧
    checkLatLong val hor = true ∧
    ∀ split, formatLatLong val "dd" split hor =
      .singleDD (round4 (ddsOfG g)) := by
  obtain ⟨dg, hdg⟩ := Option.isSome_iff_exists.mp hdeg
  refine ⟨rfl, ?_, ?_⟩
  · rw [checkLatLong, if_neg (by simp [hnull])]
    show (match pyMatch (cellStr val) with
      | none => false
      | some g => match g.deg with
        | none => false
        | some _ =>
            if grpReject g then false
            else match g.deg2 with
              | none => singleFlowCheck g hor
              | some _ => !pairReject g) = true
    rw [hm]
    show (match g.deg with
      | none => false
      | some _ =>
          if grpReject g then false
          else match g.deg2 with
            | none => singleFlowCheck g hor
            | some _ => !pairReject g) = true
    rw [hdg]
    show (if grpReject g then false
      else match g.deg2 with
        | none => singleFlowCheck g hor
        | some _ => !pairReject g) = true
    rw [if_neg (by simp [hrej]), hdeg2]
    show singleFlowCheck g hor = true
    exact singleFlowCheck_noHem g hor hhem hb
  · intro split
    rw [formatLatLong, if_neg (by simp [hnull])]
    show (match pyMatch (cellStr val) with
      | none => Outcome.unknown
      | some g => match g.deg with
        | none => Outcome.unknown
        | some _ =>
            if grpReject g then Outcome.unknown
            else match g.deg2 with
              | none => singleFlowFormat g "dd" hor
              | some _ => pairFlowFormat g "dd" split) = _
    rw [hm]
    show (match g.deg with
      | none => Outcome.unknown
      | some _ =>
          if grpReject g then Outcome.unknown
          else match g.deg2 with
            | none => singleFlowFormat g "dd" hor
            | some _ => pairFlowFormat g "dd" split) = _
    rw [hdg]
    show (if grpReject g then Outcome.unknown
      else match g.deg2 with
        | none => singleFlowFormat g "dd" hor
        | some _ => pairFlowFormat g "dd" split) = _
    rw [if_neg (by simp [hrej]), hdeg2]
    show singleFlowFormat g "dd" hor = _
    exact singleFlowFormat_noHem_dd g hor hhem hb

theorem claim_C1_amended_witness :
    formatLatLong (.str "-40 30") "dd" false "lat" =
      .singleDD (round4 (ddsOfG ⟨none, some ['-', '4', '0'], some ['3', '0'],
        none, none, none, none, none, none, none⟩)) :=
  (claim_C1_amended (.str "-40 30")
    ⟨none, some ['-', '4', '0'], some ['3', '0'], none, none, none, none, none,
      none, none⟩
    "lat" (by decide) (by decide) (by decide) (by decide) (by decide)
    (by decide) (Or.inl ⟨rfl, by decide⟩)).2.2 false

/-- C2: cleaning a plain decimal numeral `d` in `"dd"` format yields
`round(d, 4)` when `|d| ≤ 90` on the latitude axis, and when `|d| ≤ 180` on
the longitude axis, for either split mode. -/
theorem claim_C2 (neg : Bool) (I F : List Char) (split : Bool)
    (hI : I ≠ []) (hID : ∀ c ∈ I, isDigitCh c = true)
    (hFD : ∀ c ∈ F, isDigitCh c = true) :
    (|pyFloat (decChars neg I F)| ≤ 90 →
      cleanList [.str ⟨decChars neg I F⟩] "dd" split "lat" =
        [.singleDD (round4 (pyFloat (decChars neg I F)))]) ∧
    (|pyFloat (decChars neg I F)| ≤ 180 →
      cleanList [.str ⟨decChars neg I F⟩] "dd" split "long" =
        [.singleDD (round4 (pyFloat (decChars neg I F)))]) := by
  constructor <;> intro hbnd
  · have h := (cleanDecimal neg I F split "lat" hI hID hFD (Or.inl ⟨rfl, hbnd⟩)).1
    simp [cleanList, h]
  · have h := (cleanDecimal neg I F split "long" hI hID hFD
      (Or.inr ⟨rfl, hbnd⟩)).1
    simp [cleanList, h]

theorem claim_C2_witness :
    cleanList [.str ⟨decChars false ['4', '0'] ['7', '1', '2', '8']⟩] "dd" false
      "lat" = [.singleDD (round4 (pyFloat
        (decChars false ['4', '0'] ['7', '1', '2', '8'])))] :=
  (claim_C2 false ['4', '0'] ['7', '1', '2', '8'] false (by decide) (by decide)
    (by decide)).1 (by decide)

/-! C8: idempotence of `"dd"` cleaning. -/

theorem pairFlowFormat_ne_singleDD (g : MatchGroups) (fmt : String)
    (split : Bool) (v : ℚ) : pairFlowFormat g fmt split ≠ .singleDD v := by
  simp only [pairFlowFormat, pairStrOut]
  split_ifs <;> simp

/-- Inversion of a successful `"dd"` single-coordinate cleaning. -/
theorem formatLatLong_singleDD_inv {val : CellVal} {fmt : String} {split : Bool}
    {hor : String} {v : ℚ}
    (h : formatLatLong val fmt split hor = .singleDD v) :
    ∃ g dg, isNullVal val = false ∧ pyMatch (cellStr val) = some g ∧
      g.deg = some dg ∧ grpReject g = false ∧ g.deg2 = none ∧
      singleFlowFormat g fmt hor = .singleDD v := by
  by_cases hnull : isNullVal val = true
  · rw [formatLatLong, if_pos (by simp [hnull])] at h
    exact absurd h (by simp)
  · have hnull2 : isNullVal val = false := by simpa using hnull
    rw [formatLatLong, if_neg (by simp [hnull2])] at h
    cases hm : pyMatch (cellStr val) with
    | none =>
        rw [hm] at h
        simp at h
    | some g =>
        rw [hm] at h
        simp only [] at h
        cases hdg : g.deg with
        | none =>
            rw [hdg] at h
            simp at h
        | some dg =>
            rw [hdg] at h
            simp only [] at h
            cases hrej : grpReject g with
            | true =>
                rw [hrej] at h
                simp at h
            | false =>
                rw [hrej] at h
                simp only [if_false, Bool.false_eq_true] at h
                cases hdg2 : g.deg2 with
                | none =>
                    rw [hdg2] at h
                    exact ⟨g, dg, hnull2, rfl, hdg, hrej, hdg2, h⟩
                | some dg2X =>
                    rw [hdg2] at h
                    exact absurd h (pairFlowFormat_ne_singleDD g fmt split v)

/-- Inversion of the single `"dd"` flow on a real axis: the value is the
rounded, hemisphere-signed magnitude, the magnitude is within the axis bound,
and the resolved hemisphere belongs to the axis. -/
theorem singleFlowFormat_dd_inv {g : MatchGroups} {hor : String} {v : ℚ}
    (hhor : hor = "lat" ∨ hor = "long")
    (h : singleFlowFormat g "dd" hor = .singleDD v) :
    ((hor = "lat" ∧ |ddsOfG g| ≤ 90 ∧
        (inferHem (hemOf g) (ddsOfG g) hor = some ['N'] ∨
         inferHem (hemOf g) (ddsOfG g) hor = some ['S'])) ∨
     (hor = "long" ∧ |ddsOfG g| ≤ 180 ∧
        (inferHem (hemOf g) (ddsOfG g) hor = some ['E'] ∨
         inferHem (hemOf g) (ddsOfG g) hor = some ['W']))) ∧
    v = round4 ((if inferHem (hemOf g) (ddsOfG g) hor = some ['S'] ∨
        inferHem (hemOf g) (ddsOfG g) hor = some ['W'] then (-1 : ℚ) else 1) *
      |ddsOfG g|) := by
  rcases hhor with hhor | hhor <;> subst hhor
  · rw [singleFlowFormat] at h
    by_cases h1 : ("lat" : String) = "lat" ∧ (90 < |ddsOfG g| ∨
        ¬(inferHem (hemOf g) (ddsOfG g) "lat" = some ['N'] ∨
          inferHem (hemOf g) (ddsOfG g) "lat" = some ['S']))
    · rw [if_pos h1] at h
      exact absurd h (by simp)
    · rw [if_neg h1, if_neg (by simp), if_pos rfl] at h
      push_neg at h1
      obtain ⟨hb, hhem⟩ := h1 rfl
      exact ⟨Or.inl ⟨rfl, hb, hhem⟩, (Outcome.singleDD.inj h).symm⟩
  · rw [singleFlowFormat] at h
    rw [if_neg (by simp)] at h
    by_cases h2 : ("long" : String) = "long" ∧ (180 < |ddsOfG g| ∨
        ¬(inferHem (hemOf g) (ddsOfG g) "long" = some ['E'] ∨
          inferHem (hemOf g) (ddsOfG g) "long" = some ['W']))
    · rw [if_pos h2] at h
      exact absurd h (by simp)
    · rw [if_neg h2, if_pos rfl] at h
      push_neg at h2
      obtain ⟨hb, hhem⟩ := h2 rfl
      exact ⟨Or.inr ⟨rfl, hb, hhem⟩, (Outcome.singleDD.inj h).symm⟩

/-- C8: cleaning an already-cleaned `"dd"` output a second time on the same
(real) axis succeeds and returns the identical value. -/
theorem claim_C8 (val : CellVal) (split split2 : Bool) (hor : String) (v : ℚ)
    (hhor : hor = "lat" ∨ hor = "long")
    (h : formatLatLong val "dd" split hor = .singleDD v) :
    formatLatLong (.str (pyFloatStr v)) "dd" split2 hor = .singleDD v := by
  obtain ⟨g, dg, hnull, hm, hdg, hrej, hdg2, hs⟩ := formatLatLong_singleDD_inv h
  obtain ⟨hax, hv⟩ := singleFlowFormat_dd_inv hhor hs
  have hden : (v * 10000).den = 1 := by
    rw [hv]
    exact round4_mul_den_one _
  have hvr : round4 v = v := round4_of_den_one hden
  have habs : ∀ B : ℤ, (0 : ℚ) ≤ (B : ℚ) → |ddsOfG g| ≤ (B : ℚ) →
      |v| ≤ (B : ℚ) := by
    intro B hB hbound
    rw [hv]
    by_cases hsgn : inferHem (hemOf g) (ddsOfG g) hor = some ['S'] ∨
        inferHem (hemOf g) (ddsOfG g) hor = some ['W']
    · rw [if_pos hsgn, neg_one_mul, round4_neg, abs_neg,
        abs_of_nonneg (round4_nonneg (abs_nonneg _))]
      exact round4_le_of_le hbound
    · rw [if_neg hsgn, one_mul,
        abs_of_nonneg (round4_nonneg (abs_nonneg _))]
      exact round4_le_of_le hbound
  obtain ⟨I, F, hI, hID, hFne, hFD, hdata, hval⟩ := pyFloatStr_shape v hden
  have hstr : pyFloatStr v = (⟨decChars (decide (v < 0)) I F⟩ : String) :=
    (rfl : pyFloatStr v = String.mk (pyFloatStr v).data).trans
      (congrArg String.mk hdata)
  rw [hstr]
  have hb2 : (hor = "lat" ∧ |pyFloat (decChars (decide (v < 0)) I F)| ≤ 90) ∨
      (hor = "long" ∧ |pyFloat (decChars (decide (v < 0)) I F)| ≤ 180) := by
    rcases hax with ⟨hh, hbd, _⟩ | ⟨hh, hbd, _⟩
    · left
      refine ⟨hh, ?_⟩
      rw [hval]
      exact_mod_cast habs 90 (by norm_num) hbd
    · right
      refine ⟨hh, ?_⟩
      rw [hval]
      exact_mod_cast habs 180 (by norm_num) hbd
  have hclean := (cleanDecimal (decide (v < 0)) I F split2 hor hI hID hFD hb2).1
  rw [hclean, hval, hvr]

theorem claim_C8_witness :
    formatLatLong (.str (pyFloatStr (81 / 2))) "dd" false "lat" =
      .singleDD (81 / 2) :=
  claim_C8 (.str "40.5") false false "lat" (81 / 2) (Or.inl rfl) (by decide)

/-! Lemmas for the `"dms"` round trip (claim C9): symbolic parsing of the
rendered degrees-minutes-seconds string. -/

/-- A single-character capture group over a class. -/
theorem grp_cls_run {g : Nat} {p : Char → Bool} {ch : Char} {s c k r}
    (hp : p ch = true) (h : k s (capsSet g [ch] c) = some r) :
    reM (.grp g (.cls p)) (ch :: s) c k = some r := by
  rw [reM_grp, reM_cls_cons, if_pos hp]
  simpa using h

theorem intRender_nonneg {z : ℤ} (h : 0 ≤ z) :
    intRender z = (⟨natDigs z.toNat⟩ : String) := by
  rw [intRender, if_neg (not_lt.mpr h)]

/-- `float` of a bare digit string. -/
theorem pyFloat_digits {l : List Char} (hl : l ≠ [])
    (hld : ∀ x ∈ l, isDigitCh x = true) :
    pyFloat l = (digitsToNat l : ℚ) := by
  have h2 : decChars false l [] = l := by simp [decChars, fracChars]
  have h3 := pyFloat_dec false l [] hl hld (by simp)
  rw [h2] at h3
  rw [h3]
  simp [digitsToNat]

/-- No null string contains the degree sign, so no rendered coordinate string
is a member of the null set. -/
theorem not_null_of_degChar {l : List Char} (h : degChar ∈ l) :
    isNullVal (.str ⟨l⟩) = false := by
  have key : ∀ t ∈ NULL_STRS, ∀ c ∈ t.data, c ≠ degChar := by decide
  rw [isNullVal]
  by_contra hc
  rw [Bool.not_eq_false] at hc
  obtain ⟨t, htmem, hbeq⟩ := List.contains_iff_exists_mem_beq.mp hc
  have heq : (⟨l⟩ : String) = t := eq_of_beq hbeq
  have hdata : t.data = l := by rw [← heq]
  exact key t htmem degChar (hdata ▸ h) rfl

theorem pyTrunc_of_nonneg {q : ℚ} (h : 0 ≤ q) : pyTrunc q = ⌊q⌋ := by
  rw [pyTrunc, if_neg (not_lt.mpr h)]

/-- The f-string rendering of a nonnegative four-decimal value is a plain
unsigned numeral that `float` reads back exactly. -/
theorem numRender_shape (q : ℚ) (h0 : 0 ≤ q) (h4 : (q * 10000).den = 1) :
    ∃ I F, I ≠ [] ∧ (∀ c ∈ I, isDigitCh c = true) ∧
      (∀ c ∈ F, isDigitCh c = true) ∧
      (numRender q).data = I ++ fracChars F ∧ pyFloat (I ++ fracChars F) = q := by
  by_cases hden : q.den = 1
  · refine ⟨natDigs q.num.toNat, [], natDigs_ne_nil _, natDigs_digits _,
      by simp, ?_, ?_⟩
    · rw [numRender, if_pos hden,
        intRender_nonneg (Rat.num_nonneg.mpr h0)]
      simp [fracChars]
    · have he : natDigs q.num.toNat ++ fracChars [] = natDigs q.num.toNat := by
        simp [fracChars]
      rw [he, pyFloat_digits (natDigs_ne_nil _) (natDigs_digits _), natDigs_val]
      have hz : ((q.num.toNat : ℤ) : ℚ) = (q.num : ℚ) := by
        exact_mod_cast congrArg (fun z : ℤ => (z : ℚ))
          (Int.toNat_of_nonneg (Rat.num_nonneg.mpr h0))
      rw [show ((q.num.toNat : ℚ)) = ((q.num.toNat : ℤ) : ℚ) by push_cast; ring,
        hz, Rat.coe_int_num_of_den_eq_one hden]
  · obtain ⟨I, F, hI, hID, _, hFD, hdata, hval⟩ := pyFloatStr_shape q h4
    have hneg : decide (q < 0) = false := by simp [not_lt.mpr h0]
    rw [hneg] at hdata hval
    have he : decChars false I F = I ++ fracChars F := by simp [decChars]
    rw [he] at hdata hval
    exact ⟨I, F, hI, hID, hFD, by rw [numRender, if_neg hden]; exact hdata, hval⟩

/-- C9 counterexample: `"0D 0m 59.99999s"` parses and validates (seconds
`59.99999 < 60`), but its `"dms"` rendering rounds the seconds up to `60`, and
the rendered string `"0° 0′ 60″ N"` is rejected by the same grammar's
validation, so re-parsing yields no decimal-degree value at all. -/
theorem claim_C9_counterexample :
    checkLatLong (.str "0D 0m 59.99999s") "lat" = true ∧
    formatLatLong (.str "0D 0m 59.99999s") "dms" false "lat" =
      .singleStr "0° 0′ 60″ N" ∧
    checkLatLong (.str "0° 0′ 60″ N") "lat" = false ∧
    formatLatLong (.str "0° 0′ 60″ N") "dd" false "lat" = .unknown :=
  ⟨by decide, by decide, by decide, by decide⟩

/-- A capture group over `-?FLOAT` consuming a bare digit run. -/
theorem grp_sfloat_digits_run (g : Nat) {I rest : List Char} {c : Caps}
    {k : List Char → Caps → Option Caps} {r : Caps}
    (hI : I ≠ []) (hID : ∀ x ∈ I, isDigitCh x = true) (hrest : headNfD rest)
    (h : k rest (capsSet g I c) = some r) :
    reM (.grp g signedFloatRE) (I ++ rest) c k = some r := by
  have he : I ++ rest = decChars false I [] ++ rest := by
    simp [decChars, fracChars]
  rw [he]
  apply grp_run
  apply signedFloatRE_run hI hID (by simp) hrest
  simp only [take_consumed]
  rw [show decChars false I [] = I from by simp [decChars, fracChars]]
  exact h

/-- A capture group over `FLOAT` consuming a bare digit run. -/
theorem grp_digits_run (g : Nat) {I rest : List Char} {c : Caps}
    {k : List Char → Caps → Option Caps} {r : Caps}
    (hI : I ≠ []) (hID : ∀ x ∈ I, isDigitCh x = true) (hrest : headNfD rest)
    (h : k rest (capsSet g I c) = some r) :
    reM (.grp g floatRE) (I ++ rest) c k = some r := by
  have he : I ++ rest = (I ++ fracChars []) ++ rest := by simp [fracChars]
  rw [he]
  apply grp_run
  apply floatRE_run hI hID (by simp) hrest
  simp only [take_consumed]
  rw [show (I ++ fracChars []) = I from by simp [fracChars]]
  exact h

/-- A capture group over `FLOAT` consuming a full decimal numeral. -/
theorem grp_float_run (g : Nat) {I F rest : List Char} {c : Caps}
    {k : List Char → Caps → Option Caps} {r : Caps}
    (hI : I ≠ []) (hID : ∀ x ∈ I, isDigitCh x = true)
    (hFD : ∀ x ∈ F, isDigitCh x = true) (hrest : headNfD rest)
    (h : k rest (capsSet g (I ++ fracChars F) c) = some r) :
    reM (.grp g floatRE) (I ++ (fracChars F ++ rest)) c k = some r := by
  rw [← List.append_assoc]
  apply grp_run
  apply floatRE_run hI hID hFD hrest
  simp only [take_consumed]
  exact h

/-- Matching the full pattern against a rendered degrees-minutes-seconds
string `D° m′ s″ H`: the degree, minute and second groups capture the three
numerals and the back-direction group captures the hemisphere letter. -/
theorem dmsParse (Dl ml I F : List Char) (hch : Char)
    (hD : Dl ≠ []) (hDd : ∀ x ∈ Dl, isDigitCh x = true)
    (hm : ml ≠ []) (hmd : ∀ x ∈ ml, isDigitCh x = true)
    (hI : I ≠ []) (hID : ∀ x ∈ I, isDigitCh x = true)
    (hFD : ∀ x ∈ F, isDigitCh x = true)
    (hh : nsewCh hch = true) :
    reM patternRE
      (Dl ++ degChar :: ' ' :: (ml ++ primeChar :: ' ' ::
        ((I ++ fracChars F) ++ dprimeChar :: ' ' :: [hch])))
      capsEmpty (fun _ c => some c) =
      some (capsSet 5 [hch] (capsSet 4 (I ++ fracChars F)
        (capsSet 3 ml (capsSet 2 Dl capsEmpty)))) := by
  obtain ⟨d0, D2, rfl⟩ : ∃ a t, Dl = a :: t := by
    cases Dl with
    | nil => exact absurd rfl hD
    | cons a t => exact ⟨a, t, rfl⟩
  have hd0 := hDd d0 (by simp)
  obtain ⟨m0, M2, rfl⟩ : ∃ a t, ml = a :: t := by
    cases ml with
    | nil => exact absurd rfl hm
    | cons a t => exact ⟨a, t, rfl⟩
  have hm0 := hmd m0 (by simp)
  obtain ⟨i0, I2, rfl⟩ : ∃ a t, I = a :: t := by
    cases I with
    | nil => exact absurd rfl hI
    | cons a t => exact ⟨a, t, rfl⟩
  have hi0 := hID i0 (by simp)
  rw [show (d0 :: D2) ++ degChar :: ' ' :: ((m0 :: M2) ++ primeChar :: ' ' ::
        (((i0 :: I2) ++ fracChars F) ++ dprimeChar :: ' ' :: [hch])) =
      d0 :: (D2 ++ (degChar :: ' ' :: (m0 :: (M2 ++ (primeChar :: ' ' ::
        (i0 :: (I2 ++ (fracChars F ++ (dprimeChar :: ' ' :: [hch])))))))))
      from by simp]
  simp only [patternRE, coordRE]
  apply seq_run
  apply lazy_first
  apply seq_run
  apply optR_run_skip (cls_fail (digit_not_opar hd0))
  apply seq_run
  apply seq_run
  apply optR_run_skip (grp_cls_fail (digit_not_nsew hd0))
  apply seq_run
  apply star_skip_run (digit_not_sp hd0)
  apply seq_run
  apply grp_sfloat_digits_run 2 hD hDd (by exact ⟨by decide, by decide⟩)
  apply seq_run
  apply optR_of_succ
  apply seq_run
  apply cls_run (show degSymCh degChar = true by decide)
  apply seq_run
  apply starCls_all [' '] (by decide)
  · exact digit_not_sp hm0
  apply seq_run
  apply optR_of_succ
  apply seq_run
  apply grp_digits_run 3 hm hmd (by exact ⟨by decide, by decide⟩)
  apply seq_run
  apply optR_of_succ
  apply cls_run (show primeSymCh primeChar = true by decide)
  apply starCls_all [' '] (by decide)
  · exact digit_not_sp hi0
  apply optR_of_succ
  apply seq_run
  apply grp_float_run 4 hI hID hFD (by exact ⟨by decide, by decide⟩)
  apply seq_run
  apply cls_run (show dprimeSymCh dprimeChar = true by decide)
  apply starCls_all [' '] (by decide)
  · exact nsew_not_sp hh
  apply optR_of_succ
  apply grp_cls_run hh
  apply seq_run
  apply optR_run_skip (by simp only [sepRE, reM_seq, reM_star_nil, reM_cls_nil])
  apply seq_run
  apply optR_run_skip (by simp only [reM_cls_nil])
  apply seq_run
  simp only [reM_star_nil, reM_eos_nil]

/-- A rendered degrees-minutes-seconds string contains no ASCII apostrophe. -/
theorem dms_no_apo {Dl ml I F : List Char} {hch : Char}
    (hDd : ∀ x ∈ Dl, isDigitCh x = true)
    (hmd : ∀ x ∈ ml, isDigitCh x = true)
    (hID : ∀ x ∈ I, isDigitCh x = true)
    (hFD : ∀ x ∈ F, isDigitCh x = true)
    (hh : nsewCh hch = true) :
    ∀ c ∈ Dl ++ degChar :: ' ' :: (ml ++ primeChar :: ' ' ::
      ((I ++ fracChars F) ++ dprimeChar :: ' ' :: [hch])), c ≠ apoChar := by
  intro c hc
  simp only [List.mem_append, List.mem_cons] at hc
  rcases hc with hc | hc | hc | hc | hc | hc | hc | hc | hc | hc
  · exact digit_ne_apo (hDd c hc)
  · subst hc; decide
  · subst hc; decide
  · exact digit_ne_apo (hmd c hc)
  · subst hc; decide
  · subst hc; decide
  · rcases hc with hc | hc
    · exact digit_ne_apo (hID c hc)
    · exact fracChars_no_apo hFD c hc
  · subst hc; decide
  · subst hc; decide
  · rcases hc with hc | hc
    · subst hc; exact nsew_ne_apo hh
    · simp at hc

/-- `pyMatch` on a rendered degrees-minutes-seconds string. -/
theorem pyMatch_dms (Dl ml I F : List Char) (hch : Char)
    (hD : Dl ≠ []) (hDd : ∀ x ∈ Dl, isDigitCh x = true)
    (hm : ml ≠ []) (hmd : ∀ x ∈ ml, isDigitCh x = true)
    (hI : I ≠ []) (hID : ∀ x ∈ I, isDigitCh x = true)
    (hFD : ∀ x ∈ F, isDigitCh x = true)
    (hh : nsewCh hch = true) :
    pyMatch ⟨Dl ++ degChar :: ' ' :: (ml ++ primeChar :: ' ' ::
      ((I ++ fracChars F) ++ dprimeChar :: ' ' :: [hch]))⟩ =
      some ⟨none, some Dl, some ml, some (I ++ fracChars F), some [hch],
            none, none, none, none, none⟩ := by
  show (reM patternRE (subApo (Dl ++ degChar :: ' ' :: (ml ++ primeChar :: ' ' ::
      ((I ++ fracChars F) ++ dprimeChar :: ' ' :: [hch])))) capsEmpty
      (fun _ c => some c)).map capsGroups = _
  rw [subApo_id (dms_no_apo hDd hmd hID hFD hh),
    dmsParse Dl ml I F hch hD hDd hm hmd hI hID hFD hh]
  rfl

/-- Decomposition of the rendered `"dms"` string of a nonnegative value. -/
theorem dmsStr_data (a : ℚ) (hch : Char) {I F : List Char}
    (h0 : 0 ≤ a)
    (hsec : (numRender (dmsSecs a)).data = I ++ fracChars F) :
    (dmsStr a (some [hch])).data =
      natDigs (pyTrunc a).toNat ++ degChar :: ' ' ::
        (natDigs (pyTrunc (60 * (a - pyTrunc a))).toNat ++ primeChar :: ' ' ::
          ((I ++ fracChars F) ++ dprimeChar :: ' ' :: [hch])) := by
  have hD0 : (0 : ℤ) ≤ pyTrunc a := by
    rw [pyTrunc_of_nonneg h0]
    exact Int.floor_nonneg.mpr h0
  have hfl : (pyTrunc a : ℚ) ≤ a := by
    rw [pyTrunc_of_nonneg h0]
    exact Int.floor_le a
  have hfr : (0 : ℚ) ≤ 60 * (a - pyTrunc a) := by nlinarith
  have hm0 : (0 : ℤ) ≤ pyTrunc (60 * (a - pyTrunc a)) := by
    rw [pyTrunc_of_nonneg hfr]
    exact Int.floor_nonneg.mpr hfr
  rw [dmsStr, intRender_nonneg hD0, intRender_nonneg hm0]
  simp [String.data_append, hemRender, hsec,
    show (" " : String).data = [' '] from rfl]

theorem pairFlowFormat_ne_singleStr (g : MatchGroups) (fmt : String)
    (split : Bool) (t : String) : pairFlowFormat g fmt split ≠ .singleStr t := by
  simp only [pairFlowFormat, pairStrOut]
  split_ifs <;> simp

/-- Inversion of a successful string-rendering single-coordinate cleaning. -/
theorem formatLatLong_singleStr_inv {val : CellVal} {fmt : String} {split : Bool}
    {hor : String} {t : String}
    (h : formatLatLong val fmt split hor = .singleStr t) :
    ∃ g dg, isNullVal val = false ∧ pyMatch (cellStr val) = some g ∧
      g.deg = some dg ∧ grpReject g = false ∧ g.deg2 = none ∧
      singleFlowFormat g fmt hor = .singleStr t := by
  by_cases hnull : isNullVal val = true
  · rw [formatLatLong, if_pos (by simp [hnull])] at h
    exact absurd h (by simp)
  · have hnull2 : isNullVal val = false := by simpa using hnull
    rw [formatLatLong, if_neg (by simp [hnull2])] at h
    cases hm : pyMatch (cellStr val) with
    | none =>
        rw [hm] at h
        simp at h
    | some g =>
        rw [hm] at h
        simp only [] at h
        cases hdg : g.deg with
        | none =>
            rw [hdg] at h
            simp at h
        | some dg =>
            rw [hdg] at h
            simp only [] at h
            cases hrej : grpReject g with
            | true =>
                rw [hrej] at h
                simp at h
            | false =>
                rw [hrej] at h
                simp only [if_false, Bool.false_eq_true] at h
                cases hdg2 : g.deg2 with
                | none =>
                    rw [hdg2] at h
                    exact ⟨g, dg, hnull2, rfl, hdg, hrej, hdg2, h⟩
                | some dg2X =>
                    rw [hdg2] at h
                    exact absurd h (pairFlowFormat_ne_singleStr g fmt split t)

/-- Inversion of the single `"dms"` flow on a real axis: the output string is
the rendering of the absolute decimal-degree value with the resolved
hemisphere, the value is within the axis bound, and the hemisphere belongs to
the axis. -/
theorem singleFlowFormat_dms_inv {g : MatchGroups} {hor : String} {t : String}
    (hhor : hor = "lat" ∨ hor = "long")
    (h : singleFlowFormat g "dms" hor = .singleStr t) :
    ((hor = "lat" ∧ |ddsOfG g| ≤ 90 ∧
        (inferHem (hemOf g) (ddsOfG g) hor = some ['N'] ∨
         inferHem (hemOf g) (ddsOfG g) hor = some ['S'])) ∨
     (hor = "long" ∧ |ddsOfG g| ≤ 180 ∧
        (inferHem (hemOf g) (ddsOfG g) hor = some ['E'] ∨
         inferHem (hemOf g) (ddsOfG g) hor = some ['W']))) ∧
    t = dmsStr |ddsOfG g| (inferHem (hemOf g) (ddsOfG g) hor) := by
  rcases hhor with hhor | hhor <;> subst hhor
  · rw [singleFlowFormat] at h
    by_cases h1 : ("lat" : String) = "lat" ∧ (90 < |ddsOfG g| ∨
        ¬(inferHem (hemOf g) (ddsOfG g) "lat" = some ['N'] ∨
          inferHem (hemOf g) (ddsOfG g) "lat" = some ['S']))
    · rw [if_pos h1] at h
      exact absurd h (by simp)
    · rw [if_neg h1, if_neg (by simp), if_neg (by decide), if_neg (by decide),
        if_neg (by decide), if_pos rfl] at h
      push_neg at h1
      obtain ⟨hb, hhem⟩ := h1 rfl
      exact ⟨Or.inl ⟨rfl, hb, hhem⟩, (Outcome.singleStr.inj h).symm⟩
  · rw [singleFlowFormat] at h
    rw [if_neg (by simp)] at h
    by_cases h2 : ("long" : String) = "long" ∧ (180 < |ddsOfG g| ∨
        ¬(inferHem (hemOf g) (ddsOfG g) "long" = some ['E'] ∨
          inferHem (hemOf g) (ddsOfG g) "long" = some ['W']))
    · rw [if_pos h2] at h
      exact absurd h (by simp)
    · rw [if_neg h2, if_neg (by decide), if_neg (by decide), if_neg (by decide),
        if_pos rfl] at h
      push_neg at h2
      obtain ⟨hb, hhem⟩ := h2 rfl
      exact ⟨Or.inr ⟨rfl, hb, hhem⟩, (Outcome.singleStr.inj h).symm⟩

theorem checkLatLong_single {val : CellVal} {hor : String} {g : MatchGroups}
    {dg : List Char} (hnull : isNullVal val = false)
    (hm : pyMatch (cellStr val) = some g) (hdg : g.deg = some dg)
    (hrej : grpReject g = false) (hdg2 : g.deg2 = none) :
    checkLatLong val hor = singleFlowCheck g hor := by
  rw [checkLatLong, if_neg (by simp [hnull])]
  show (match pyMatch (cellStr val) with
    | none => false
    | some g => match g.deg with
      | none => false
      | some _ =>
          if grpReject g then false
          else match g.deg2 with
            | none => singleFlowCheck g hor
            | some _ => !pairReject g) = _
  rw [hm]
  show (match g.deg with
    | none => false
    | some _ =>
        if grpReject g then false
        else match g.deg2 with
          | none => singleFlowCheck g hor
          | some _ => !pairReject g) = _
  rw [hdg]
  show (if grpReject g then false
    else match g.deg2 with
      | none => singleFlowCheck g hor
      | some _ => !pairReject g) = _
  rw [if_neg (by simp [hrej]), hdg2]

/-- The shared rejection test vanishes on in-range minute/second values with a
legal hemisphere letter, a nonnegative degree, and at most one letter. -/
theorem grpReject_of (g : MatchGroups)
    (hmn : 0 ≤ minsVal g.mins ∧ minsVal g.mins < 60)
    (hsc : 0 ≤ minsVal g.secs ∧ minsVal g.secs < 60)
    (hhem : ∀ h, hemOf g = some h →
      (h = ['N'] ∨ h = ['S'] ∨ h = ['E'] ∨ h = ['W']) ∧ 0 ≤ degVal g)
    (hfb : (g.dirBack.isSome && g.dirFront.isSome) = false) :
    grpReject g = false := by
  rw [grpReject]
  simp only [Bool.or_eq_false_iff]
  refine ⟨⟨⟨?_, ?_⟩, ?_⟩, hfb⟩
  · simp [hmn.1, hmn.2]
  · simp [hsc.1, hsc.2]
  · cases hh : hemOf g with
    | none => rfl
    | some h =>
        obtain ⟨h1, h2⟩ := hhem h hh
        simp [h1, not_lt.mpr h2]

/-! Arithmetic facts about the degrees-minutes-seconds decomposition of a
nonnegative value. -/

theorem dms_m_bounds {a : ℚ} (h0 : 0 ≤ a) :
    0 ≤ pyTrunc (60 * (a - pyTrunc a)) ∧
    pyTrunc (60 * (a - pyTrunc a)) ≤ 59 := by
  have hfl : pyTrunc a = ⌊a⌋ := pyTrunc_of_nonneg h0
  have h1 : (pyTrunc a : ℚ) ≤ a := by rw [hfl]; exact Int.floor_le a
  have h2 : a < pyTrunc a + 1 := by rw [hfl]; exact_mod_cast Int.lt_floor_add_one a
  have hfr0 : (0 : ℚ) ≤ 60 * (a - pyTrunc a) := by linarith
  have hfr60 : 60 * (a - (pyTrunc a : ℚ)) < 60 := by linarith
  rw [pyTrunc_of_nonneg hfr0]
  constructor
  · exact Int.floor_nonneg.mpr hfr0
  · have h3 : ⌊60 * (a - (pyTrunc a : ℚ))⌋ < 60 :=
      Int.floor_lt.mpr (by exact_mod_cast hfr60)
    omega

theorem dms_s_bounds {a : ℚ} (h0 : 0 ≤ a) :
    0 ≤ 3600 * (a - pyTrunc a) - 60 * pyTrunc (60 * (a - pyTrunc a)) ∧
    3600 * (a - pyTrunc a) - 60 * pyTrunc (60 * (a - pyTrunc a)) < 60 := by
  have hfl : pyTrunc a = ⌊a⌋ := pyTrunc_of_nonneg h0
  have h1 : (pyTrunc a : ℚ) ≤ a := by rw [hfl]; exact Int.floor_le a
  have hfr0 : (0 : ℚ) ≤ 60 * (a - pyTrunc a) := by linarith
  have hm1 : (pyTrunc (60 * (a - pyTrunc a)) : ℚ) ≤ 60 * (a - pyTrunc a) := by
    rw [pyTrunc_of_nonneg hfr0]
    exact Int.floor_le _
  have hm2 : 60 * (a - (pyTrunc a : ℚ)) < pyTrunc (60 * (a - pyTrunc a)) + 1 := by
    rw [pyTrunc_of_nonneg hfr0]
    exact_mod_cast Int.lt_floor_add_one (60 * (a - (pyTrunc a : ℚ)))
  constructor <;> nlinarith

theorem dmsSecs_nonneg {a : ℚ} (h0 : 0 ≤ a) : 0 ≤ dmsSecs a :=
  round4_nonneg (dms_s_bounds h0).1

/-- The value reconstructed from the rendered degree, minute and second fields
is within `1/10000` of the rendered value. -/
theorem dms_dds2_err (a : ℚ) :
    |((pyTrunc a : ℚ) + (pyTrunc (60 * (a - pyTrunc a)) : ℚ) / 60 +
      dmsSecs a / 3600) - a| ≤ 1 / 10000 := by
  have herr := round4_err
    (3600 * (a - pyTrunc a) - 60 * pyTrunc (60 * (a - pyTrunc a)))
  rw [dmsSecs]
  rw [show (pyTrunc a : ℚ) + (pyTrunc (60 * (a - pyTrunc a)) : ℚ) / 60 +
      round4 (3600 * (a - pyTrunc a) -
        60 * pyTrunc (60 * (a - pyTrunc a))) / 3600 - a =
      (round4 (3600 * (a - pyTrunc a) -
        60 * pyTrunc (60 * (a - pyTrunc a))) -
       (3600 * (a - pyTrunc a) - 60 * pyTrunc (60 * (a - pyTrunc a)))) / 3600
      from by ring]
  rw [abs_div, abs_of_pos (by norm_num : (0 : ℚ) < 3600)]
  linarith

/-- Under the "seconds round below 60" proviso the reconstructed value stays
within the axis bound. -/
theorem dms_dds2_le {a : ℚ} (B : ℤ) (h0 : 0 ≤ a) (ha : a ≤ (B : ℚ))
    (hS : dmsSecs a < 60) :
    (pyTrunc a : ℚ) + (pyTrunc (60 * (a - pyTrunc a)) : ℚ) / 60 +
      dmsSecs a / 3600 ≤ (B : ℚ) := by
  have hfl : pyTrunc a = ⌊a⌋ := pyTrunc_of_nonneg h0
  have h1 : (pyTrunc a : ℚ) ≤ a := by rw [hfl]; exact Int.floor_le a
  have hDB : pyTrunc a ≤ B := by exact_mod_cast le_trans h1 ha
  have hS0 : 0 ≤ dmsSecs a := dmsSecs_nonneg h0
  by_cases hD : pyTrunc a ≤ B - 1
  · have hDq : (pyTrunc a : ℚ) ≤ (B : ℚ) - 1 := by exact_mod_cast hD
    have hm59 : (pyTrunc (60 * (a - pyTrunc a)) : ℚ) ≤ 59 := by
      exact_mod_cast (dms_m_bounds h0).2
    linarith
  · have hDeq : pyTrunc a = B := by omega
    have haB : a = (B : ℚ) := by
      refine le_antisymm ha ?_
      calc (B : ℚ) = (pyTrunc a : ℚ) := by exact_mod_cast hDeq.symm
        _ ≤ a := h1
    have hfr : a - (pyTrunc a : ℚ) = 0 := by
      rw [show ((pyTrunc a : ℤ) : ℚ) = (B : ℚ) from by exact_mod_cast hDeq, haB]
      ring
    have hmz : pyTrunc (60 * (a - (pyTrunc a : ℚ))) = 0 := by
      rw [hfr]
      norm_num [pyTrunc]
    have hsz : dmsSecs a = 0 := by
      rw [dmsSecs, hmz, hfr]
      norm_num
      exact round4_of_den_one (by norm_num)
    rw [hsz, hmz, hDeq]
    norm_num

theorem pyFloat_natDigs_int {z : ℤ} (hz : 0 ≤ z) :
    pyFloat (natDigs z.toNat) = (z : ℚ) := by
  rw [pyFloat_digits (natDigs_ne_nil _) (natDigs_digits _), natDigs_val]
  exact_mod_cast congrArg (fun w : ℤ => (w : ℚ)) (Int.toNat_of_nonneg hz)

/-- Re-parsing facts for the rendered degrees-minutes-seconds string of a
nonnegative value: the grammar accepts it, the shared rejection test passes,
and the re-parsed decimal-degree value is the degree/minute/second sum. -/
theorem dms_reparse (a : ℚ) (hch : Char) {I F : List Char}
    (h0 : 0 ≤ a) (hI : I ≠ []) (hID : ∀ x ∈ I, isDigitCh x = true)
    (hFD : ∀ x ∈ F, isDigitCh x = true)
    (hSval : pyFloat (I ++ fracChars F) = dmsSecs a)
    (hset : hch = 'N' ∨ hch = 'S' ∨ hch = 'E' ∨ hch = 'W')
    (hsec : dmsSecs a < 60) :
    ∃ g2 : MatchGroups,
      pyMatch ⟨natDigs (pyTrunc a).toNat ++ degChar :: ' ' ::
        (natDigs (pyTrunc (60 * (a - pyTrunc a))).toNat ++ primeChar :: ' ' ::
          ((I ++ fracChars F) ++ dprimeChar :: ' ' :: [hch]))⟩ = some g2 ∧
      g2.deg = some (natDigs (pyTrunc a).toNat) ∧
      g2.deg2 = none ∧
      hemOf g2 = some [hch] ∧
      grpReject g2 = false ∧
      ddsOfG g2 = (pyTrunc a : ℚ) +
        (pyTrunc (60 * (a - pyTrunc a)) : ℚ) / 60 + dmsSecs a / 3600 := by
  have hhch : nsewCh hch = true := by
    rcases hset with rfl | rfl | rfl | rfl <;> decide
  have hD0 : (0 : ℤ) ≤ pyTrunc a := by
    rw [pyTrunc_of_nonneg h0]
    exact Int.floor_nonneg.mpr h0
  have hmB := dms_m_bounds h0
  have hS0 : 0 ≤ dmsSecs a := dmsSecs_nonneg h0
  have hDv : pyFloat (natDigs (pyTrunc a).toNat) = (pyTrunc a : ℚ) :=
    pyFloat_natDigs_int hD0
  have hMv : pyFloat (natDigs (pyTrunc (60 * (a - pyTrunc a))).toNat) =
      (pyTrunc (60 * (a - pyTrunc a)) : ℚ) := pyFloat_natDigs_int hmB.1
  have hM0 : (0 : ℚ) ≤ (pyTrunc (60 * (a - pyTrunc a)) : ℚ) := by
    exact_mod_cast hmB.1
  have hM60 : (pyTrunc (60 * (a - pyTrunc a)) : ℚ) < 60 := by
    have h59 : (pyTrunc (60 * (a - pyTrunc a)) : ℚ) ≤ 59 := by
      exact_mod_cast hmB.2
    linarith
  refine ⟨⟨none, some (natDigs (pyTrunc a).toNat),
      some (natDigs (pyTrunc (60 * (a - pyTrunc a))).toNat),
      some (I ++ fracChars F), some [hch], none, none, none, none, none⟩,
    pyMatch_dms _ _ I F hch (natDigs_ne_nil _) (natDigs_digits _)
      (natDigs_ne_nil _) (natDigs_digits _) hI hID hFD hhch,
    rfl, rfl, rfl, ?_, ?_⟩
  · apply grpReject_of
    · exact ⟨by rw [show minsVal (some (natDigs
          (pyTrunc (60 * (a - pyTrunc a))).toNat)) = pyFloat (natDigs
          (pyTrunc (60 * (a - pyTrunc a))).toNat) from rfl, hMv]; exact hM0,
        by rw [show minsVal (some (natDigs
          (pyTrunc (60 * (a - pyTrunc a))).toNat)) = pyFloat (natDigs
          (pyTrunc (60 * (a - pyTrunc a))).toNat) from rfl, hMv]; exact hM60⟩
    · exact ⟨by rw [show minsVal (some (I ++ fracChars F)) =
          pyFloat (I ++ fracChars F) from rfl, hSval]; exact hS0,
        by rw [show minsVal (some (I ++ fracChars F)) =
          pyFloat (I ++ fracChars F) from rfl, hSval]; exact hsec⟩
    · intro h hh
      have hh2 : h = [hch] := by
        have := hh
        simp only [hemOf] at this
        exact (Option.some.inj this).symm
      subst hh2
      refine ⟨?_, ?_⟩
      · rcases hset with rfl | rfl | rfl | rfl
        · exact Or.inl rfl
        · exact Or.inr (Or.inl rfl)
        · exact Or.inr (Or.inr (Or.inl rfl))
        · exact Or.inr (Or.inr (Or.inr rfl))
      · rw [show degVal (⟨none, some (natDigs (pyTrunc a).toNat),
            some (natDigs (pyTrunc (60 * (a - pyTrunc a))).toNat),
            some (I ++ fracChars F), some [hch], none, none, none, none,
            none⟩ : MatchGroups) = pyFloat (natDigs (pyTrunc a).toNat)
            from rfl, hDv]
        exact_mod_cast hD0
    · rfl
  · rw [show ddsOfG (⟨none, some (natDigs (pyTrunc a).toNat),
        some (natDigs (pyTrunc (60 * (a - pyTrunc a))).toNat),
        some (I ++ fracChars F), some [hch], none, none, none, none,
        none⟩ : MatchGroups) = pyFloat (natDigs (pyTrunc a).toNat) +
        pyFloat (natDigs (pyTrunc (60 * (a - pyTrunc a))).toNat) / 60 +
        pyFloat (I ++ fracChars F) / 3600 from rfl, hDv, hMv, hSval]

/-- C9 (amended): for a coordinate that parses and validates on a real axis,
provided the rendered seconds value stays below `60` after rounding, the
`"dms"` rendering re-parses under the same grammar, passes validation, keeps
the resolved hemisphere letter, and its decimal-degree value is within
`0.0001` of the original magnitude. -/
theorem claim_C9_amended (val : CellVal) (split : Bool) (hor : String)
    (t : String) (g : MatchGroups)
    (hhor : hor = "lat" ∨ hor = "long")
    (hm : pyMatch (cellStr val) = some g)
    (hfmt : formatLatLong val "dms" split hor = .singleStr t)
    (hsec : dmsSecs |ddsOfG g| < 60) :
    checkLatLong (.str t) hor = true ∧
    ∃ g2, pyMatch t = some g2 ∧
      hemOf g2 = inferHem (hemOf g) (ddsOfG g) hor ∧
      abs (ddsOfG g2 - |ddsOfG g|) ≤ 1 / 10000 := by
  obtain ⟨gx, dg, hnull, hmx, hdgx, hrejx, hdg2x, hsf⟩ :=
    formatLatLong_singleStr_inv hfmt
  have hgg : gx = g := Option.some.inj ((hmx.symm).trans hm)
  subst hgg
  obtain ⟨hax, ht⟩ := singleFlowFormat_dms_inv hhor hsf
  obtain ⟨hch, hemEq, hbnd⟩ : ∃ hch : Char,
      inferHem (hemOf gx) (ddsOfG gx) hor = some [hch] ∧
      ((hor = "lat" ∧ |ddsOfG gx| ≤ 90 ∧ (hch = 'N' ∨ hch = 'S')) ∨
       (hor = "long" ∧ |ddsOfG gx| ≤ 180 ∧ (hch = 'E' ∨ hch = 'W'))) := by
    rcases hax with ⟨hh1, hb, hhem | hhem⟩ | ⟨hh1, hb, hhem | hhem⟩
    · exact ⟨'N', hhem, Or.inl ⟨hh1, hb, Or.inl rfl⟩⟩
    · exact ⟨'S', hhem, Or.inl ⟨hh1, hb, Or.inr rfl⟩⟩
    · exact ⟨'E', hhem, Or.inr ⟨hh1, hb, Or.inl rfl⟩⟩
    · exact ⟨'W', hhem, Or.inr ⟨hh1, hb, Or.inr rfl⟩⟩
  have hset : hch = 'N' ∨ hch = 'S' ∨ hch = 'E' ∨ hch = 'W' := by
    rcases hbnd with ⟨_, _, h | h⟩ | ⟨_, _, h | h⟩ <;> subst h <;> tauto
  set a := |ddsOfG gx| with ha
  have h0 : 0 ≤ a := abs_nonneg _
  have hD0 : (0 : ℤ) ≤ pyTrunc a := by
    rw [pyTrunc_of_nonneg h0]
    exact Int.floor_nonneg.mpr h0
  have hS0 : 0 ≤ dmsSecs a := dmsSecs_nonneg h0
  have hden : (dmsSecs a * 10000).den = 1 := by
    rw [dmsSecs]
    exact round4_mul_den_one _
  obtain ⟨I, F, hI, hID, hFD, hSdata, hSval⟩ :=
    numRender_shape (dmsSecs a) hS0 hden
  rw [hemEq] at ht
  have hdata := dmsStr_data a hch h0 hSdata
  have htL : t = ⟨natDigs (pyTrunc a).toNat ++ degChar :: ' ' ::
      (natDigs (pyTrunc (60 * (a - pyTrunc a))).toNat ++ primeChar :: ' ' ::
        ((I ++ fracChars F) ++ dprimeChar :: ' ' :: [hch]))⟩ := by
    rw [ht, ← hdata]
  obtain ⟨g2, hm2, hdg2, hdeg2none, hhem2, hrej2, hdds2⟩ :=
    dms_reparse a hch h0 hI hID hFD hSval hset hsec
  have hmT : pyMatch (cellStr (.str t)) = some g2 := by
    show pyMatch t = some g2
    rw [htL]
    exact hm2
  have hnullT : isNullVal (.str t) = false := by
    rw [htL]
    exact not_null_of_degChar (by simp)
  have hchk : checkLatLong (.str t) hor = singleFlowCheck g2 hor :=
    checkLatLong_single hnullT hmT hdg2 hrej2 hdeg2none
  have hinf2 : inferHem (hemOf g2) (ddsOfG g2) hor = some [hch] := by
    rw [hhem2]
    rfl
  have hnn : 0 ≤ ddsOfG g2 := by
    rw [hdds2]
    have c1 : (0 : ℚ) ≤ (pyTrunc a : ℚ) := by exact_mod_cast hD0
    have c2 : (0 : ℚ) ≤ (pyTrunc (60 * (a - pyTrunc a)) : ℚ) := by
      exact_mod_cast (dms_m_bounds h0).1
    linarith
  have herr : |ddsOfG g2 - a| ≤ 1 / 10000 := by
    rw [hdds2]
    exact dms_dds2_err a
  refine ⟨?_, g2, by rw [htL]; exact hm2, by rw [hhem2, hemEq], herr⟩
  rw [hchk]
  rcases hbnd with ⟨hhe, hb, hNS⟩ | ⟨hhe, hb, hEW⟩
  · subst hhe
    have hle : ddsOfG g2 ≤ 90 := by
      rw [hdds2]
      exact_mod_cast dms_dds2_le 90 h0 (by exact_mod_cast hb) hsec
    have hm90 : (-90 : ℚ) ≤ ddsOfG g2 := by linarith
    have h2 : inferHem (hemOf g2) (ddsOfG g2) "lat" = some ['N'] ∨
        inferHem (hemOf g2) (ddsOfG g2) "lat" = some ['S'] := by
      rcases hNS with rfl | rfl
      · exact Or.inl hinf2
      · exact Or.inr hinf2
    simp [singleFlowCheck, hm90, hle, h2]
  · subst hhe
    have hle : ddsOfG g2 ≤ 180 := by
      rw [hdds2]
      exact_mod_cast dms_dds2_le 180 h0 (by exact_mod_cast hb) hsec
    have hm180 : (-180 : ℚ) ≤ ddsOfG g2 := by linarith
    have h2 : inferHem (hemOf g2) (ddsOfG g2) "long" = some ['E'] ∨
        inferHem (hemOf g2) (ddsOfG g2) "long" = some ['W'] := by
      rcases hEW with rfl | rfl
      · exact Or.inl hinf2
      · exact Or.inr hinf2
    simp [singleFlowCheck, hm180, hle, h2]

theorem claim_C9_amended_witness :
    checkLatLong (.str "40° 30′ 0″ N") "lat" = true ∧
    ∃ g2, pyMatch "40° 30′ 0″ N" = some g2 ∧
      hemOf g2 = inferHem (hemOf ⟨none, some ['4', '0', '.', '5'], none, none,
        none, none, none, none, none, none⟩) (ddsOfG ⟨none,
        some ['4', '0', '.', '5'], none, none, none, none, none, none, none,
        none⟩) "lat" ∧
      abs (ddsOfG g2 - |ddsOfG (⟨none, some ['4', '0', '.', '5'], none, none,
        none, none, none, none, none, none⟩ : MatchGroups)|) ≤ 1 / 10000 :=
  claim_C9_amended (.str "40.5") false "lat" "40° 30′ 0″ N"
    ⟨none, some ['4', '0', '.', '5'], none, none, none, none, none, none, none,
      none⟩ (Or.inl rfl) (by decide) (by decide) (by decide)

end DataprepLatLong
